import Mathlib

/-! # godebugbar: bounded request store, correlation context, request lifecycle

A shallow embedding of the Go package `godebugbar` (`types.go`, `debugbar.go`,
`errors.go`, `gorm.go`, `middleware.go`).

* A `*RequestInfo` is an address into a heap of records (`none` is Go's `nil`).
* A Go slice is embedded as the list of its elements; `make`, `copy` and the
  slice expression `s[lo:]` are embedded with their run-time checks.
* A function that can raise a run-time panic returns `Except Fault _`.
* Values the program obtains from its environment (`uuid.New()`, `time.Now()`,
  `runtime.Stack`, `runtime.ReadMemStats`, `c.ClientIP()`) are arguments.
* The mutexes are not embedded: every operation is one atomic step, and an
  interleaving of goroutines is a sequence of such steps.
* The accessors of the store are embedded a second time over backing arrays,
  where a slice is a view of an array, to state what writing to a returned
  slice can change.
* The rest of the handler chain is embedded twice: as an arbitrary function
  (`ginMiddleware`), and as a program over the operations the package exports
  (`Handler`, `middlewareRun`), which also records the states a run goes
  through; `middlewareRun_agrees` relates the two.
-/

namespace GoDebugBar

/-! ## Run-time faults -/

/-- Run-time panics of the Go program. -/
inductive Fault where
  /-- slice bounds out of range -/
  | sliceBounds
  /-- makeslice: len or cap out of range -/
  | makeslice
  /-- invalid memory address or nil pointer dereference -/
  | nilDeref
  /-- index out of range -/
  | indexRange
  /-- an address outside the heap; no Go program can produce one -/
  | invalidPtr
  deriving DecidableEq, Repr

deriving instance DecidableEq for Except

/-! ## Record types (`types.go`) -/

/-- A value of Go type `any`, as far as the package inspects it (it never does). -/
inductive AnyVal where
  | null
  | str (s : String)
  | int (i : Int)
  | bool (b : Bool)
  deriving DecidableEq, Repr

/-- A Go `map[string]V`, as an association list with at most one entry per key. -/
abbrev GoMap (V : Type) := List (String × V)

/-- Map assignment `m[k] = v`. -/
def GoMap.set {V : Type} (m : GoMap V) (k : String) (v : V) : GoMap V :=
  (k, v) :: m.filter (fun e => e.1 != k)

/-- Map lookup `v, ok := m[k]`. -/
def GoMap.get {V : Type} (m : GoMap V) (k : String) : Option V :=
  (m.find? (fun e => e.1 == k)).map Prod.snd

/-- The struct `QueryInfo`. Times are nanoseconds; `DurationMs` is the float
`float64(Duration) / 1e6`, kept as its numerator. -/
structure QueryInfo where
  ID : String
  RequestID : String
  Query : String
  Args : List AnyVal
  Duration : Int
  DurationMs : Int
  RowsAffected : Int
  Error : String
  StartTime : Int
  Source : String
  deriving DecidableEq, Repr

/-- The struct `ErrorInfo`; `Typ` is the Go field `Type`, `Context` may be a nil map. -/
structure ErrorInfo where
  ID : String
  RequestID : String
  Message : String
  Stack : String
  Typ : String
  Timestamp : Int
  Context : Option (GoMap AnyVal)
  deriving DecidableEq, Repr

/-- The struct `RequestInfo`; `RequestBody` is a Go string, kept as its bytes;
`CustomData` may be a nil map. -/
structure RequestInfo where
  ID : String
  Method : String
  Path : String
  StatusCode : Int
  Duration : Int
  DurationMs : Int
  StartTime : Int
  EndTime : Int
  Headers : GoMap String
  QueryParams : GoMap String
  RequestBody : List Nat
  ResponseSize : Int
  ClientIP : String
  Queries : List QueryInfo
  Errors : List ErrorInfo
  MemoryUsage : Nat
  CustomData : Option (GoMap AnyVal)
  deriving DecidableEq, Repr

/-- The zero value `RequestInfo{}`. -/
def zeroRequestInfo : RequestInfo :=
  { ID := "", Method := "", Path := "", StatusCode := 0, Duration := 0, DurationMs := 0,
    StartTime := 0, EndTime := 0, Headers := [], QueryParams := [], RequestBody := [],
    ResponseSize := 0, ClientIP := "", Queries := [], Errors := [], MemoryUsage := 0,
    CustomData := none }

/-- A `*RequestInfo`: `none` is `nil`, `some a` is the address `a` of a record. -/
abbrev Ptr := Option Nat

/-- The heap of `RequestInfo` records; the address of a record is its index. -/
abbrev Heap := List RequestInfo

/-- Pointer dereference `*p`. -/
def deref (heap : Heap) : Ptr → Except Fault RequestInfo
  | none => .error .nilDeref
  | some a =>
    match heap.get? a with
    | some r => .ok r
    | none => .error .invalidPtr

/-- The struct `Config`. -/
structure Config where
  Enabled : Bool
  WebSocketPath : String
  MaxRequests : Int
  CaptureRequestBody : Bool
  MaxBodySize : Int
  AllowedOrigins : List String
  deriving DecidableEq, Repr

/-- Go `DefaultConfig()`. -/
def DefaultConfig : Config :=
  { Enabled := true
    WebSocketPath := "/_debugbar/ws"
    MaxRequests := 100
    CaptureRequestBody := true
    MaxBodySize := 64 * 1024
    AllowedOrigins := ["*"] }

/-! ## Slice primitives -/

/-- Go `make([]*RequestInfo, n)`: `n` nil pointers; panics when `n` is negative. -/
def goMake (n : Int) : Except Fault (List Ptr) :=
  if n < 0 then .error .makeslice else .ok (List.replicate n.toNat none)

/-- Go `make([]*RequestInfo, 0, c)`: the empty slice of capacity `c`; panics when
`c` is negative. The capacity itself is not part of the embedding, and neither
is the allocator's upper limit on `c`. -/
def goMakeCap (c : Int) : Except Fault (List Ptr) :=
  if c < 0 then .error .makeslice else .ok []

/-- Go `copy(dst, src)`: the new contents of `dst`; the first
`min(len(dst), len(src))` elements are overwritten by those of `src`. -/
def goCopy (dst src : List Ptr) : List Ptr :=
  src.take dst.length ++ dst.drop src.length

/-- The slice expression `s[lo:]`; panics unless `0 ≤ lo ≤ len(s)`. -/
def sliceFrom (s : List Ptr) (lo : Int) : Except Fault (List Ptr) :=
  if lo < 0 ∨ (s.length : Int) < lo then .error .sliceBounds
  else .ok (s.drop lo.toNat)

/-! ## The request store (`types.go`) -/

/-- The struct `RequestStore` (without its mutex). -/
structure RequestStore where
  requests : List Ptr
  maxSize : Int
  deriving DecidableEq, Repr

/-- Go `NewRequestStore(maxSize)`. -/
def NewRequestStore (maxSize : Int) : Except Fault RequestStore := do
  let requests ← goMakeCap maxSize
  pure { requests := requests, maxSize := maxSize }

/-- Go `(*RequestStore).Add`. -/
def RequestStore.Add (s : RequestStore) (req : Ptr) : Except Fault RequestStore := do
  let requests ←
    if (s.requests.length : Int) ≥ s.maxSize then sliceFrom s.requests 1
    else pure s.requests
  pure { s with requests := requests ++ [req] }

/-- The loop of `(*RequestStore).Get` over the remaining requests. -/
def getLoop (heap : Heap) (id : String) : List Ptr → Except Fault Ptr
  | [] => .ok none
  | req :: rest => do
    let r ← deref heap req
    if r.ID = id then pure req else getLoop heap id rest

/-- Go `(*RequestStore).Get`: the pointer found, or `nil`. -/
def RequestStore.Get (heap : Heap) (s : RequestStore) (id : String) : Except Fault Ptr :=
  getLoop heap id s.requests

/-- Go `(*RequestStore).GetAll`. -/
def RequestStore.GetAll (s : RequestStore) : Except Fault (List Ptr) := do
  let result ← goMake s.requests.length
  pure (goCopy result s.requests)

/-- Go `(*RequestStore).GetRecent`. -/
def RequestStore.GetRecent (s : RequestStore) (n : Int) : Except Fault (List Ptr) := do
  let n := if n > s.requests.length then (s.requests.length : Int) else n
  let result ← goMake n
  let src ← sliceFrom s.requests (s.requests.length - n)
  pure (goCopy result src)

/-- Go `(*RequestStore).Clear`. -/
def RequestStore.Clear (s : RequestStore) : Except Fault RequestStore := do
  let requests ← goMakeCap s.maxSize
  pure { s with requests := requests }

/-- A sequence of `Add` calls, in order. -/
def addAll (s : RequestStore) : List Ptr → Except Fault RequestStore
  | [] => .ok s
  | req :: rest => do
    let s ← s.Add req
    addAll s rest

/-- One mutating call on a store. -/
inductive StoreOp where
  | add (req : Ptr)
  | clear
  deriving DecidableEq, Repr

/-- Run one call. -/
def StoreOp.run (s : RequestStore) : StoreOp → Except Fault RequestStore
  | .add req => s.Add req
  | .clear => s.Clear

/-- Run a sequence of `Add` and `Clear` calls, returning the store after each
call (the last state first), or the panic of the first call that fails. -/
def runOps (s : RequestStore) : List StoreOp → Except Fault (List RequestStore)
  | [] => .ok []
  | op :: rest => do
    let s ← op.run s
    let later ← runOps s rest
    pure (later ++ [s])

/-! ## Broadcast messages (`types.go`) -/

/-- The `Payload any` of a message: the package sends a `*RequestInfo`, a
`QueryInfo` or an `ErrorInfo`. -/
inductive PayloadVal where
  | request (p : Ptr)
  | query (q : QueryInfo)
  | error (e : ErrorInfo)
  deriving DecidableEq, Repr

/-- The struct `WebSocketMessage`; `Typ` is the Go field `Type`. -/
structure WebSocketMessage where
  Typ : String
  Payload : PayloadVal
  deriving DecidableEq, Repr

def MessageTypeRequest : String := "request"
def MessageTypeQuery : String := "query"
def MessageTypeError : String := "error"
def MessageTypeRequestEnd : String := "request_end"

/-- Modelled from the spec: the type `WebSocketHub` and its method `Broadcast`
are declared in a file that is not among the sources. The spec's `publish(event)`
accepts an event envelope from any producer and never fails; the hub is kept as
the sequence of the messages handed to `Broadcast`, in call order. -/
structure WebSocketHub where
  published : List WebSocketMessage
  deriving DecidableEq, Repr

/-- Modelled from the spec: `(*WebSocketHub).Broadcast`, see `WebSocketHub`. -/
def WebSocketHub.Broadcast (h : WebSocketHub) (msg : WebSocketMessage) : WebSocketHub :=
  { published := h.published ++ [msg] }

/-! ## The debug bar (`debugbar.go`) -/

/-- The struct `DebugBar` (without its mutex); `wsHub` may be nil. -/
structure DebugBar where
  config : Config
  store : RequestStore
  wsHub : Option WebSocketHub
  deriving DecidableEq, Repr

/-- The program state: the heap of request records and the debug bar. -/
structure World where
  heap : Heap
  d : DebugBar
  deriving DecidableEq, Repr

/-- Go `New(config)`; the hub's `Run` goroutine is not embedded. -/
def New (config : Config) : Except Fault DebugBar := do
  let store ← NewRequestStore config.MaxRequests
  pure { config := config, store := store, wsHub := some { published := [] } }

/-- Go `(*DebugBar).SetEnabled`. -/
def DebugBar.SetEnabled (d : DebugBar) (enabled : Bool) : DebugBar :=
  { d with config := { d.config with Enabled := enabled } }

/-- Go `(*DebugBar).broadcast`. -/
def DebugBar.broadcast (d : DebugBar) (msg : WebSocketMessage) : DebugBar :=
  match d.wsHub with
  | some h => { d with wsHub := some (h.Broadcast msg) }
  | none => d

/-- The messages broadcast so far. -/
def DebugBar.events (d : DebugBar) : List WebSocketMessage :=
  match d.wsHub with
  | some h => h.published
  | none => []

/-- Go `(*DebugBar).storeRequest`. -/
def DebugBar.storeRequest (d : DebugBar) (req : Ptr) : Except Fault DebugBar := do
  let store ← d.store.Add req
  pure { d with store := store }

/-- Go `(*DebugBar).GetHistory`. -/
def DebugBar.GetHistory (d : DebugBar) : Except Fault (List Ptr) := d.store.GetAll

/-- Go `(*DebugBar).GetRecentHistory`. -/
def DebugBar.GetRecentHistory (d : DebugBar) (n : Int) : Except Fault (List Ptr) :=
  d.store.GetRecent n

/-- Go `(*DebugBar).ClearHistory`. -/
def DebugBar.ClearHistory (d : DebugBar) : Except Fault DebugBar := do
  let store ← d.store.Clear
  pure { d with store := store }

/-! ## Carriers: the gin context and the standard context -/

/-- A value held by a context under a key: a `*RequestInfo` (possibly the
typed nil pointer) or a value of any other type (`other .null` is the nil
interface). -/
inductive CtxVal where
  | reqInfo (p : Ptr)
  | other (v : AnyVal)
  deriving DecidableEq, Repr

/-- A key of a standard context: its dynamic type and its value. -/
structure StdKey where
  typ : String
  name : String
  deriving DecidableEq, Repr

/-- Go `DebugBarContextKey`, of type `ContextKey`. -/
def DebugBarContextKey : StdKey := { typ := "ContextKey", name := "debugbar_request" }

/-- A `context.Context`: its chain of `WithValue` bindings, innermost first. -/
abbrev StdContext := List (StdKey × CtxVal)

/-- Go `context.WithValue(parent, key, val)`. -/
def StdContext.WithValue (parent : StdContext) (key : StdKey) (val : CtxVal) : StdContext :=
  (key, val) :: parent

/-- Go `ctx.Value(key)`; `none` is the nil interface of an absent key. -/
def StdContext.Value (ctx : StdContext) (key : StdKey) : Option CtxVal :=
  (ctx.find? (fun e => e.1 == key)).map Prod.snd

/-- A request body: the bytes still to be read, and whether the stream ends in
a read error instead of end-of-file. -/
structure Body where
  data : List Nat
  fails : Bool
  deriving DecidableEq, Repr

/-- The part of `*http.Request` the package uses; `Body` may be nil. -/
structure Request where
  Method : String
  Path : String
  Header : List (String × List String)
  Query : List (String × List String)
  Body : Option Body
  ctx : StdContext
  deriving DecidableEq, Repr

/-- The part of `gin.ResponseWriter` the package uses: the status, and the
number of bytes written through it so far. -/
structure ResponseWriter where
  status : Int
  written : Int
  deriving DecidableEq, Repr

/-- The part of `*gin.Context` the package uses. -/
structure GinContext where
  Keys : GoMap CtxVal
  Request : Request
  Writer : ResponseWriter
  deriving DecidableEq, Repr

/-- Go `c.Set(key, value)`. -/
def GinContext.Set (c : GinContext) (key : String) (value : CtxVal) : GinContext :=
  { c with Keys := GoMap.set c.Keys key value }

/-- Go `c.Get(key)`. -/
def GinContext.Get (c : GinContext) (key : String) : Option CtxVal :=
  GoMap.get c.Keys key

/-- Go `(*DebugBar).GetRequestInfo`. -/
def GetRequestInfo (c : GinContext) : Ptr :=
  match c.Get DebugBarContextKey.name with
  | some (.reqInfo reqInfo) => reqInfo
  | _ => none

/-- Go `(*DebugBar).GetRequestInfoFromContext`. -/
def GetRequestInfoFromContext (ctx : StdContext) : Ptr :=
  match ctx.Value DebugBarContextKey with
  | some (.reqInfo reqInfo) => reqInfo
  | _ => none

/-- The assignment `*p = r` through a pointer known to be valid. -/
def store_record (heap : Heap) (a : Nat) (r : RequestInfo) : Heap :=
  heap.set a r

/-! ## Attach operations (`debugbar.go`, `errors.go`) -/

/-- Go `(*DebugBar).AddError`; `err = none` is the nil error, `id` is
`uuid.New().String()` and `stack` is what `runtime.Stack` writes. -/
def AddError (w : World) (c : GinContext) (err : Option String) (errType : String)
    (ctx : Option (GoMap AnyVal)) (id stack : String) : Except Fault World :=
  match GetRequestInfo c with
  | none => pure w
  | some a => do
    let reqInfo ← deref w.heap (some a)
    let message ← match err with
      | some m => pure m
      | none => throw Fault.nilDeref
    let errorInfo : ErrorInfo :=
      { ID := id, RequestID := reqInfo.ID, Message := message, Stack := "",
        Typ := errType, Timestamp := 0, Context := ctx }
    let errorInfo := { errorInfo with Stack := stack }
    let heap := store_record w.heap a { reqInfo with Errors := reqInfo.Errors ++ [errorInfo] }
    pure { heap := heap
           d := w.d.broadcast { Typ := MessageTypeError, Payload := .error errorInfo } }

/-- Go `(*DebugBar).AddCustomData`. -/
def AddCustomData (w : World) (c : GinContext) (key : String) (value : AnyVal) :
    Except Fault World :=
  match GetRequestInfo c with
  | none => pure w
  | some a => do
    let reqInfo ← deref w.heap (some a)
    let customData := match reqInfo.CustomData with
      | none => []
      | some m => m
    let heap := store_record w.heap a
      { reqInfo with CustomData := some (GoMap.set customData key value) }
    pure { w with heap := heap }

/-- Go `(*DebugBar).addQuery`. -/
def addQuery (w : World) (ctx : StdContext) (query : QueryInfo) : Except Fault World :=
  match GetRequestInfoFromContext ctx with
  | none => pure w
  | some a => do
    let reqInfo ← deref w.heap (some a)
    let query := { query with RequestID := reqInfo.ID }
    let heap := store_record w.heap a { reqInfo with Queries := reqInfo.Queries ++ [query] }
    pure { heap := heap
           d := w.d.broadcast { Typ := MessageTypeQuery, Payload := .query query } }

/-- Go `(*DebugBar).logError`; `id` is `uuid.New().String()`, `now` is `time.Now()`
and `stack` is the result of `captureStackTrace(skip + 1)`. -/
def logError (w : World) (c : GinContext) (err : Option String) (errType : String)
    (ctx : Option (GoMap AnyVal)) (id : String) (now : Int) (stack : String) :
    Except Fault World :=
  if !w.d.config.Enabled then pure w
  else
    match GetRequestInfo c with
    | none => pure w
    | some a => do
      let reqInfo ← deref w.heap (some a)
      let message ← match err with
        | some m => pure m
        | none => throw Fault.nilDeref
      let errorInfo : ErrorInfo :=
        { ID := id, RequestID := reqInfo.ID, Message := message, Stack := "",
          Typ := errType, Timestamp := now, Context := ctx }
      let errorInfo := { errorInfo with Stack := stack }
      let heap := store_record w.heap a { reqInfo with Errors := reqInfo.Errors ++ [errorInfo] }
      pure { heap := heap
             d := w.d.broadcast { Typ := MessageTypeError, Payload := .error errorInfo } }

def ErrorTypeException : String := "exception"
def ErrorTypeWarning : String := "warning"
def ErrorTypeNotice : String := "notice"
def ErrorTypeDebug : String := "debug"

/-- Go `(*DebugBar).LogError`. -/
def LogError (w : World) (c : GinContext) (err : Option String) (id : String) (now : Int)
    (stack : String) : Except Fault World :=
  logError w c err ErrorTypeException none id now stack

/-- Go `(*DebugBar).LogWarning`; `fmt.Errorf("%s", message)` is a non-nil error. -/
def LogWarning (w : World) (c : GinContext) (message : String) (id : String) (now : Int)
    (stack : String) : Except Fault World :=
  logError w c (some message) ErrorTypeWarning none id now stack

/-- Go `(*DebugBar).LogNotice`. -/
def LogNotice (w : World) (c : GinContext) (message : String) (id : String) (now : Int)
    (stack : String) : Except Fault World :=
  logError w c (some message) ErrorTypeNotice none id now stack

/-- Go `(*DebugBar).LogDebug`. -/
def LogDebug (w : World) (c : GinContext) (message : String) (id : String) (now : Int)
    (stack : String) : Except Fault World :=
  logError w c (some message) ErrorTypeDebug none id now stack

/-! ## The GORM callbacks (`gorm.go`) -/

/-- A value stored by `db.InstanceSet`. -/
inductive InstVal where
  | time (t : Int)
  | str (s : String)
  | other (v : AnyVal)
  deriving DecidableEq, Repr

/-- The part of `*gorm.DB` the callbacks use: the instance settings, the
statement's SQL text, variables and context, the affected rows and the error. -/
structure GormDB where
  settings : GoMap InstVal
  SQL : String
  Vars : List AnyVal
  Context : StdContext
  RowsAffected : Int
  Error : Option String
  deriving DecidableEq, Repr

def startTimeKey : String := "debugbar:start_time"
def queryIDKey : String := "debugbar:query_id"

/-- Go `(*GormDebugBarPlugin).beforeCallback`; `now` is `time.Now()` and `id` is
`uuid.New().String()`. -/
def beforeCallback (w : World) (db : GormDB) (now : Int) (id : String) : GormDB :=
  if !w.d.config.Enabled then db
  else
    let db := { db with settings := GoMap.set db.settings startTimeKey (.time now) }
    { db with settings := GoMap.set db.settings queryIDKey (.str id) }

/-- Go `(*GormDebugBarPlugin).afterCallback`; `now` is the time read by
`time.Since` and `source` is the result of `getCallerInfo()`. -/
def afterCallback (w : World) (db : GormDB) (now : Int) (source : String) :
    Except Fault World :=
  if !w.d.config.Enabled then pure w
  else
    match GoMap.get db.settings startTimeKey with
    | some (.time startTime) =>
      match GoMap.get db.settings queryIDKey with
      | some (.str queryID) =>
        let duration := now - startTime
        let queryInfo : QueryInfo :=
          { ID := queryID, RequestID := "", Query := db.SQL, Args := db.Vars,
            Duration := duration, DurationMs := duration, RowsAffected := db.RowsAffected,
            Error := "", StartTime := startTime, Source := source }
        let queryInfo := match db.Error with
          | some e => { queryInfo with Error := e }
          | none => queryInfo
        addQuery w db.Context queryInfo
      | _ => pure w
    | _ => pure w

/-! ## The request middleware (`middleware.go`) -/

/-- What one run of the middleware reads from its environment: the new UUID,
`time.Now()` before and after the handler, `c.ClientIP()`, and
`memStats.Alloc`. -/
structure Env where
  id : String
  startTime : Int
  clientIP : String
  endTime : Int
  memAlloc : Nat
  deriving DecidableEq, Repr

/-- The loops capturing headers and query parameters: the first value of
every key that has one. -/
def firstValues (m : List (String × List String)) : GoMap String :=
  m.foldl (fun acc e => match e.2 with
    | v :: _ => GoMap.set acc e.1 v
    | [] => acc) []

/-- Go `io.ReadAll(io.LimitReader(body, limit))`: the bytes read, whether the
read failed, and the body left behind. A limit that is not positive reads
nothing; a read error surfaces only when reading past the last byte (a reader
that returns its last bytes together with the error is not embedded). -/
def readAllLimited (body : Body) (limit : Int) : List Nat × Bool × Body :=
  if limit ≤ 0 then ([], false, body)
  else if limit.toNat ≤ body.data.length then
    (body.data.take limit.toNat, false, { body with data := body.data.drop limit.toNat })
  else (body.data, body.fails, { body with data := [] })

/-- The body capture of `ginMiddleware` (lines 75-83): the captured bytes, if
any, and the request as the handler will see it. -/
def captureBody (config : Config) (req : Request) : Option (List Nat) × Request :=
  match req.Body with
  | none => (none, req)
  | some body =>
    if config.CaptureRequestBody then
      match readAllLimited body config.MaxBodySize with
      | (bodyBytes, false, _) =>
        (some bodyBytes, { req with Body := some { data := bodyBytes, fails := false } })
      | (_, true, rest) => (none, { req with Body := some rest })
    else (none, req)

/-- The first part of `ginMiddleware` for a tracked request (lines 46-100):
create the record, bind it in both contexts, broadcast `request`. Returns the
new state, the context, and the address of the new record. -/
def openRequest (env : Env) (w : World) (c : GinContext) : World × GinContext × Nat :=
  let reqInfo : RequestInfo :=
    { zeroRequestInfo with
      ID := env.id, Method := c.Request.Method, Path := c.Request.Path,
      StartTime := env.startTime, Headers := [], QueryParams := [], Queries := [],
      Errors := [], ClientIP := env.clientIP }
  let reqInfo := { reqInfo with Headers := firstValues c.Request.Header }
  let reqInfo := { reqInfo with QueryParams := firstValues c.Request.Query }
  let captured := captureBody w.d.config c.Request
  let reqInfo := match captured.1 with
    | some bodyBytes => { reqInfo with RequestBody := bodyBytes }
    | none => reqInfo
  let c := { c with Request := captured.2 }
  let a := w.heap.length
  let heap := w.heap ++ [reqInfo]
  let c := c.Set DebugBarContextKey.name (.reqInfo (some a))
  let ctx := c.Request.ctx.WithValue DebugBarContextKey (.reqInfo (some a))
  let c := { c with Request := { c.Request with ctx := ctx } }
  let d := w.d.broadcast { Typ := MessageTypeRequest, Payload := .request (some a) }
  ({ heap := heap, d := d }, c, a)

/-- The last part of `ginMiddleware` (lines 105-127), the spec's `finish`:
compute the final metrics of the record, store it, broadcast `request_end`.
`startTime` and `written0` are the locals `startTime` and the byte count of
the response writer when it was wrapped. -/
def finalizeRequest (env : Env) (w : World) (c : GinContext) (reqInfo : Ptr)
    (startTime : Int) (written0 : Int) : Except Fault World := do
  let r ← deref w.heap reqInfo
  let duration := env.endTime - startTime
  let r := { r with EndTime := env.endTime }
  let r := { r with Duration := duration }
  let r := { r with DurationMs := duration }
  let r := { r with StatusCode := c.Writer.status }
  let r := { r with ResponseSize := c.Writer.written - written0 }
  let r := { r with MemoryUsage := env.memAlloc }
  let heap := match reqInfo with
    | some a => store_record w.heap a r
    | none => w.heap
  let d ← w.d.storeRequest reqInfo
  let d := d.broadcast { Typ := MessageTypeRequestEnd, Payload := .request reqInfo }
  pure { heap := heap, d := d }

/-- The handler function returned by `(*DebugBar).ginMiddleware`; `next` is
`c.Next()`, the rest of the handler chain. -/
def ginMiddleware (next : World → GinContext → Except Fault (World × GinContext))
    (env : Env) (w : World) (c : GinContext) : Except Fault (World × GinContext) :=
  if !w.d.config.Enabled then next w c
  else if c.Request.Path = w.d.config.WebSocketPath then next w c
  else do
    let opened := openRequest env w c
    let after ← next opened.1 opened.2.1
    let w ← finalizeRequest env after.1 after.2 (some opened.2.2) env.startTime c.Writer.written
    pure (w, after.2)

/-- A sequence of `addQuery` calls, each with its carrier, in call order. -/
def addQueries (w : World) : List (StdContext × QueryInfo) → Except Fault World
  | [] => .ok w
  | call :: rest => do
    let w ← addQuery w call.1 call.2
    addQueries w rest

/-- The number of broadcast messages of a given type. -/
def countEvents (d : DebugBar) (typ : String) : Nat :=
  (d.events.filter (fun m => m.Typ == typ)).length

/-- The queries of `calls` made with a carrier bound to the record at `a`,
each stamped with the request ID `id`. -/
def attachedTo (a : Nat) (id : String) (calls : List (StdContext × QueryInfo)) :
    List QueryInfo :=
  (calls.filter (fun call => GetRequestInfoFromContext call.1 == some a)).map
    (fun call => { call.2 with RequestID := id })

/-! ## The store's accessors over backing arrays

The accessors are embedded a second time with the slices as views of backing
arrays, so that the effect of writing to a returned slice can be stated. -/

/-- The backing arrays of all `[]*RequestInfo` slices; an array is named by
its index. -/
abbrev Arrays := List (List Ptr)

/-- A slice value: its backing array, the offset of its first element, and its
length. -/
structure Slice where
  arr : Nat
  off : Nat
  len : Nat
  deriving DecidableEq, Repr

/-- The elements a slice shows. -/
def Slice.elems (m : Arrays) (s : Slice) : List Ptr :=
  ((m.getD s.arr []).drop s.off).take s.len

/-- Go `make([]*RequestInfo, n)`: a new backing array of `n` nil pointers. -/
def makeSlice (m : Arrays) (n : Int) : Except Fault (Arrays × Slice) :=
  if n < 0 then .error .makeslice
  else .ok (m ++ [List.replicate n.toNat none], { arr := m.length, off := 0, len := n.toNat })

/-- Go `copy(dst, src)`, writing into the backing array of `dst`. -/
def copySlice (m : Arrays) (dst src : Slice) : Arrays :=
  m.set dst.arr ((m.getD dst.arr []).take dst.off ++ goCopy (dst.elems m) (src.elems m)
    ++ (m.getD dst.arr []).drop (dst.off + dst.len))

/-- The slice expression `s[lo:]`, a view of the same backing array. -/
def Slice.sliceFrom (s : Slice) (lo : Int) : Except Fault Slice :=
  if lo < 0 ∨ (s.len : Int) < lo then .error .sliceBounds
  else .ok { arr := s.arr, off := s.off + lo.toNat, len := s.len - lo.toNat }

/-- The assignment `s[i] = v`. -/
def Slice.setIndex (m : Arrays) (s : Slice) (i : Int) (v : Ptr) : Except Fault Arrays :=
  if i < 0 ∨ (s.len : Int) ≤ i then .error .indexRange
  else .ok (m.set s.arr ((m.getD s.arr []).set (s.off + i.toNat) v))

/-- The struct `RequestStore` with `requests` as a slice value. -/
structure SliceStore where
  requests : Slice
  maxSize : Int
  deriving DecidableEq, Repr

/-- The slice of the store lies inside an allocated backing array. -/
def SliceStore.WF (m : Arrays) (s : SliceStore) : Prop :=
  s.requests.arr < m.length ∧ s.requests.off + s.requests.len ≤ (m.getD s.requests.arr []).length

instance (m : Arrays) (s : SliceStore) : Decidable (s.WF m) := by
  unfold SliceStore.WF; infer_instance

/-- The store a `SliceStore` stands for. -/
def SliceStore.abs (m : Arrays) (s : SliceStore) : RequestStore :=
  { requests := s.requests.elems m, maxSize := s.maxSize }

/-- Go `(*RequestStore).GetAll` over backing arrays: the new memory and the
returned slice. -/
def SliceStore.GetAll (m : Arrays) (s : SliceStore) : Except Fault (Arrays × Slice) := do
  let made ← makeSlice m s.requests.len
  pure (copySlice made.1 made.2 s.requests, made.2)

/-- Go `(*RequestStore).GetRecent` over backing arrays. -/
def SliceStore.GetRecent (m : Arrays) (s : SliceStore) (n : Int) :
    Except Fault (Arrays × Slice) := do
  let n := if n > s.requests.len then (s.requests.len : Int) else n
  let made ← makeSlice m n
  let src ← s.requests.sliceFrom (s.requests.len - n)
  pure (copySlice made.1 made.2 src, made.2)

/-- Go `(*RequestStore).Get` over backing arrays: the loop ranges over the
elements of `s.requests`. -/
def SliceStore.Get (heap : Heap) (m : Arrays) (s : SliceStore) (id : String) :
    Except Fault Ptr :=
  getLoop heap id (s.requests.elems m)

/-- The sequence a caller of `GetAll` sees. -/
def SliceStore.readAll (m : Arrays) (s : SliceStore) : Except Fault (List Ptr) := do
  let got ← s.GetAll m
  pure (got.2.elems got.1)

/-- The sequence a caller of `GetRecent` sees. -/
def SliceStore.readRecent (m : Arrays) (s : SliceStore) (n : Int) : Except Fault (List Ptr) := do
  let got ← s.GetRecent m n
  pure (got.2.elems got.1)

/-- The caller's assignment `p.ID = id` to a record it holds a pointer to. -/
def assignID (heap : Heap) (p : Ptr) (id : String) : Except Fault Heap := do
  let r ← deref heap p
  match p with
  | some a => pure (store_record heap a { r with ID := id })
  | none => throw Fault.nilDeref

/-- A pointer that is not nil and points into the heap. -/
def validPtr (heap : Heap) : Ptr → Bool
  | none => false
  | some a => decide (a < heap.length)

/-- Every element of the store is a pointer to a record. -/
def StoreValid (heap : Heap) (s : RequestStore) : Prop :=
  ∀ p ∈ s.requests, validPtr heap p = true

instance (heap : Heap) (s : RequestStore) : Decidable (StoreValid heap s) := by
  unfold StoreValid; infer_instance

/-! ## Sample states -/

/-- A record with a given ID. -/
def sampleRecord (id : String) : RequestInfo := { zeroRequestInfo with ID := id }

/-- A debug bar of capacity 2 with an empty store and no message sent. -/
def sampleBar (enabled : Bool) : DebugBar :=
  { config := { DefaultConfig with Enabled := enabled, MaxRequests := 2 }
    store := { requests := [], maxSize := 2 }
    wsHub := some { published := [] } }

/-- A state with two records on the heap, none of them stored. -/
def sampleWorld (enabled : Bool) : World :=
  { heap := [sampleRecord "r0", sampleRecord "r1"], d := sampleBar enabled }

/-- A request, and a gin context, bound to the record at address `a`. -/
def sampleRequest (a : Nat) : Request :=
  { Method := "GET", Path := "/users", Header := [], Query := [], Body := none,
    ctx := StdContext.WithValue [] DebugBarContextKey (.reqInfo (some a)) }

def sampleContext (a : Nat) : GinContext :=
  { Keys := GoMap.set [] DebugBarContextKey.name (.reqInfo (some a))
    Request := sampleRequest a
    Writer := { status := 200, written := 0 } }

/-- An incoming request in which nothing is bound yet. -/
def incomingContext : GinContext :=
  { Keys := []
    Request := { Method := "GET", Path := "/users", Header := [], Query := [], Body := none,
                 ctx := [] }
    Writer := { status := 200, written := 0 } }

def sampleEnv : Env :=
  { id := "r2", startTime := 10, clientIP := "127.0.0.1", endTime := 25, memAlloc := 4096 }

def sampleQuery (id : String) : QueryInfo :=
  { ID := id, RequestID := "", Query := "SELECT 1", Args := [], Duration := 1, DurationMs := 1,
    RowsAffected := 0, Error := "", StartTime := 0, Source := "" }

/-- An incoming POST request with a body of three bytes. -/
def postContext : GinContext :=
  { Keys := []
    Request := { Method := "POST", Path := "/users", Header := [], Query := [],
                 Body := some { data := [104, 105, 33], fails := false }, ctx := [] }
    Writer := { status := 200, written := 0 } }

/-- An enabled debug bar that captures request bodies up to `maxBody` bytes. -/
def captureWorld (maxBody : Int) : World :=
  { heap := []
    d := { config := { DefaultConfig with MaxRequests := 2, MaxBodySize := maxBody }
           store := { requests := [], maxSize := 2 }
           wsHub := some { published := [] } } }

/-- The bytes a handler gets by reading `c.Request.Body` to its end. -/
def handlerReads (c : GinContext) : List Nat :=
  match c.Request.Body with
  | some body => body.data
  | none => []

/-- The finalization of `ginMiddleware` up to and including `storeRequest`
(lines 105-121), before the `request_end` broadcast. -/
def finalizeStored (env : Env) (w : World) (c : GinContext) (reqInfo : Ptr)
    (startTime : Int) (written0 : Int) : Except Fault World := do
  let r ← deref w.heap reqInfo
  let duration := env.endTime - startTime
  let r := { r with EndTime := env.endTime }
  let r := { r with Duration := duration }
  let r := { r with DurationMs := duration }
  let r := { r with StatusCode := c.Writer.status }
  let r := { r with ResponseSize := c.Writer.written - written0 }
  let r := { r with MemoryUsage := env.memAlloc }
  let heap := match reqInfo with
    | some a => store_record w.heap a r
    | none => w.heap
  let d ← w.d.storeRequest reqInfo
  pure { heap := heap, d := d }

/-- The successive states of one run of the middleware on a tracked request:
when the handler starts (the record is bound and `request` is broadcast), when
the handler returns, after `storeRequest`, and after the `request_end`
broadcast. The sequence stops at the step that panics. -/
def trackedRun (next : World → GinContext → Except Fault (World × GinContext))
    (env : Env) (w : World) (c : GinContext) : List World :=
  let opened := openRequest env w c
  match next opened.1 opened.2.1 with
  | .error _ => [opened.1]
  | .ok after =>
    match finalizeStored env after.1 after.2 (some opened.2.2) env.startTime
        c.Writer.written with
    | .error _ => [opened.1, after.1]
    | .ok stored =>
      [opened.1, after.1, stored,
       { heap := stored.heap
         d := stored.d.broadcast
           { Typ := MessageTypeRequestEnd, Payload := .request (some opened.2.2) } }]

/-- The types of the messages broadcast so far, in order. -/
def eventTypes (w : World) : List String :=
  w.d.events.map (fun m => m.Typ)

/-! ## Handlers: what the rest of the chain can do

The rest of the handler chain is code outside the finalization of the
middleware. It reaches the debug bar only through what the package exports:
the capture operations, the GORM callbacks, the history accessors,
`SetEnabled`, the middleware itself, and the fields of the records it holds
pointers to. `storeRequest`, `broadcast`, `addQuery` and the fields of
`DebugBar` are not exported. -/

/-- One step of a handler: a call of an exported operation of the debug bar,
or a change of the data the handler owns. -/
inductive HandlerOp where
  /-- Go `d.AddError(c, err, errType, ctx)` -/
  | addError (err : Option String) (errType : String) (ctx : Option (GoMap AnyVal))
      (id stack : String)
  /-- Go `d.AddCustomData(c, key, value)` -/
  | addCustomData (key : String) (value : AnyVal)
  /-- Go `d.LogError`, `d.LogWarning`, `d.LogNotice`, `d.LogDebug` and their
  `WithContext` forms, and the calls made by `RecoveryMiddleware` and
  `ErrorHandler`: all are `d.logError(c, err, errType, ctx, skip)` -/
  | logError (err : Option String) (errType : String) (ctx : Option (GoMap AnyVal))
      (id : String) (now : Int) (stack : String)
  /-- The end of a GORM operation on `db`: the plugin's `afterCallback` -/
  | afterCallback (db : GormDB) (now : Int) (source : String)
  /-- Go `d.SetEnabled(enabled)` -/
  | setEnabled (enabled : Bool)
  /-- Go `d.ClearHistory()` -/
  | clearHistory
  /-- Go `d.GetRecentHistory(n)`, which panics for a negative `n` -/
  | getRecentHistory (n : Int)
  /-- An assignment `*p = r` through a pointer to the record at address `a` -/
  | assign (a : Nat) (r : RequestInfo)
  /-- The allocation `&RequestInfo{...}` of a record of the handler's own -/
  | newRecord (r : RequestInfo)
  /-- Any change of the gin context: its keys, its request, its writer -/
  | setContext (c : GinContext)
  deriving DecidableEq, Repr

/-- Run one step. A step that panics has changed nothing. -/
def HandlerOp.run (o : HandlerOp) (w : World) (c : GinContext) :
    Except Fault (World × GinContext) :=
  match o with
  | .addError err errType ctx id stack => do
    let w1 ← GoDebugBar.AddError w c err errType ctx id stack
    pure (w1, c)
  | .addCustomData key value => do
    let w1 ← GoDebugBar.AddCustomData w c key value
    pure (w1, c)
  | .logError err errType ctx id now stack => do
    let w1 ← GoDebugBar.logError w c err errType ctx id now stack
    pure (w1, c)
  | .afterCallback db now source => do
    let w1 ← GoDebugBar.afterCallback w db now source
    pure (w1, c)
  | .setEnabled enabled => pure ({ w with d := w.d.SetEnabled enabled }, c)
  | .clearHistory => do
    let d ← w.d.ClearHistory
    pure ({ w with d := d }, c)
  | .getRecentHistory n => do
    let _ ← w.d.GetRecentHistory n
    pure (w, c)
  | .assign a r => pure ({ w with heap := store_record w.heap a r }, c)
  | .newRecord r => pure ({ w with heap := w.heap ++ [r] }, c)
  | .setContext c1 => pure (w, c1)

/-- A handler: the steps of the rest of the chain. It can return, panic, run
the middleware of the same debug bar again around an inner handler (`nested`),
and recover from the panic of a part of itself (`recover`), as
`RecoveryMiddleware` does. A later request is a later `nested` run. Runs of
the middleware are nested or follow each other; the overlapping runs of
concurrent requests are not part of the embedding. -/
inductive Handler where
  | done
  | panic (f : Fault)
  | op (o : HandlerOp) (rest : Handler)
  | nested (env : Env) (body rest : Handler)
  | recover (body rest : Handler)
  deriving Repr

/-- The outcome of a run: the states after each step, in order; the pointers
passed to `storeRequest` by calls that completed, in order; the state and the
context reached; and the panic that ended the run, if any. -/
structure Run where
  visited : List World
  inserted : List Ptr
  world : World
  ctx : GinContext
  fault : Option Fault
  deriving DecidableEq, Repr

/-- The result of a run as the middleware's caller sees it. -/
def Run.toExcept (r : Run) : Except Fault (World × GinContext) :=
  match r.fault with
  | some f => .error f
  | none => .ok (r.world, r.ctx)

/-- The assignments of `ginMiddleware` to the record at address `a` before
`storeRequest` (lines 109-118). -/
def writeMetrics (env : Env) (w : World) (c : GinContext) (a : Nat) (startTime : Int)
    (written0 : Int) : World :=
  match w.heap.get? a with
  | some r =>
    let duration := env.endTime - startTime
    let r := { r with EndTime := env.endTime }
    let r := { r with Duration := duration }
    let r := { r with DurationMs := duration }
    let r := { r with StatusCode := c.Writer.status }
    let r := { r with ResponseSize := c.Writer.written - written0 }
    let r := { r with MemoryUsage := env.memAlloc }
    { w with heap := store_record w.heap a r }
  | none => w

/-- The handler function of `ginMiddleware` with the states it goes through:
when the handler starts, the states of the handler `next`, and, when the
handler returns, the state after `storeRequest` and the state after the
`request_end` broadcast. When the handler panics the run ends there. -/
def middlewareRun (next : World → GinContext → Run) (env : Env) (w : World)
    (c : GinContext) : Run :=
  if !w.d.config.Enabled then next w c
  else if c.Request.Path = w.d.config.WebSocketPath then next w c
  else
    let opened := openRequest env w c
    let h := next opened.1 opened.2.1
    match h.fault with
    | some f =>
      { visited := opened.1 :: h.visited, inserted := h.inserted, world := h.world,
        ctx := h.ctx, fault := some f }
    | none =>
      match finalizeStored env h.world h.ctx (some opened.2.2) env.startTime
          c.Writer.written with
      | .error f =>
        { visited := opened.1 :: h.visited, inserted := h.inserted,
          world := writeMetrics env h.world h.ctx opened.2.2 env.startTime c.Writer.written,
          ctx := h.ctx, fault := some f }
      | .ok stored =>
        { visited := opened.1 :: h.visited ++
            [stored,
             { heap := stored.heap
               d := stored.d.broadcast
                 { Typ := MessageTypeRequestEnd, Payload := .request (some opened.2.2) } }]
          inserted := h.inserted ++ [some opened.2.2]
          world :=
            { heap := stored.heap
              d := stored.d.broadcast
                { Typ := MessageTypeRequestEnd, Payload := .request (some opened.2.2) } }
          ctx := h.ctx
          fault := none }

/-- Run a handler. -/
def Handler.run : Handler → World → GinContext → Run
  | .done, w, c => { visited := [], inserted := [], world := w, ctx := c, fault := none }
  | .panic f, w, c => { visited := [], inserted := [], world := w, ctx := c, fault := some f }
  | .op o rest, w, c =>
    match o.run w c with
    | .error f => { visited := [], inserted := [], world := w, ctx := c, fault := some f }
    | .ok next =>
      let r := rest.run next.1 next.2
      { visited := next.1 :: r.visited, inserted := r.inserted, world := r.world,
        ctx := r.ctx, fault := r.fault }
  | .nested env body rest, w, c =>
    let m := middlewareRun (fun w1 c1 => body.run w1 c1) env w c
    match m.fault with
    | some _ => m
    | none =>
      let r := rest.run m.world m.ctx
      { visited := m.visited ++ r.visited, inserted := m.inserted ++ r.inserted,
        world := r.world, ctx := r.ctx, fault := r.fault }
  | .recover body rest, w, c =>
    let b := body.run w c
    let r := rest.run b.world b.ctx
    { visited := b.visited ++ r.visited, inserted := b.inserted ++ r.inserted,
      world := r.world, ctx := r.ctx, fault := r.fault }

/-- The run of the handler inside a tracked run of the middleware: it starts
in the state and with the context that `openRequest` leaves. -/
def handlerPart (next : World → GinContext → Run) (env : Env) (w : World) (c : GinContext) :
    Run :=
  next (openRequest env w c).1 (openRequest env w c).2.1

/-- A pointer that is nil or points into the heap. -/
def ptrAllocated (heap : Heap) : Ptr → Bool
  | none => true
  | some a => decide (a < heap.length)

/-- A message payload that names no record outside the heap. -/
def payloadAllocated (heap : Heap) : PayloadVal → Bool
  | .request p => ptrAllocated heap p
  | _ => true

/-- A well-formed state of a debug bar made by `New` with a capacity of at
least one: the hub is there, the store is within its capacity, and every
pointer in the store and in a broadcast message points into the heap. -/
def World.WF (w : World) : Prop :=
  w.d.wsHub ≠ none ∧ 1 ≤ w.d.store.maxSize
    ∧ (w.d.store.requests.length : Int) ≤ w.d.store.maxSize
    ∧ (∀ p ∈ w.d.store.requests, ptrAllocated w.heap p = true)
    ∧ (∀ m ∈ w.d.events, payloadAllocated w.heap m.Payload = true)

instance (w : World) : Decidable w.WF := by
  unfold World.WF; infer_instance

/-- How many times the record at address `a` is in the store. -/
def storeCount (a : Nat) (w : World) : Nat :=
  w.d.store.requests.count (some a)

/-- How many messages of type `typ` about the record at address `a` have been
broadcast. -/
def eventCount (typ : String) (a : Nat) (w : World) : Nat :=
  w.d.events.count { Typ := typ, Payload := .request (some a) }

/-- The state `s` has the record at `a` in the store no more often than `w`,
and the same messages about it. -/
def Keeps (a : Nat) (w s : World) : Prop :=
  storeCount a s ≤ storeCount a w ∧ ∀ typ, eventCount typ a s = eventCount typ a w

/-- A run from `w` that ends in a well-formed state with no smaller heap and,
for every record at an address below `bound`, never stores it and never
broadcasts a `request` or `request_end` message about it. -/
def RunKeepsBelow (bound : Nat) (w : World) (r : Run) : Prop :=
  r.world.WF ∧ w.heap.length ≤ r.world.heap.length
    ∧ ∀ a, a < bound →
        (∀ s ∈ r.visited, Keeps a w s) ∧ Keeps a w r.world ∧ some a ∉ r.inserted

/-- A run from `w` that treats every record allocated in `w` that way. -/
def RunKeeps (w : World) (r : Run) : Prop :=
  RunKeepsBelow w.heap.length w r

/-- A step from `w` to `w1` that keeps the store or empties it, keeps the hub,
does not shrink the heap, and broadcasts only messages that carry no record
pointer. -/
def Quiet (w w1 : World) : Prop :=
  w1.d.store.maxSize = w.d.store.maxSize
    ∧ (w1.d.store.requests = w.d.store.requests ∨ w1.d.store.requests = [])
    ∧ w.heap.length ≤ w1.heap.length
    ∧ (w.d.wsHub ≠ none → w1.d.wsHub ≠ none)
    ∧ ∃ ms, w1.d.events = w.d.events ++ ms ∧ ∀ m ∈ ms, ∀ p, m.Payload ≠ .request p

/-- A handler that logs an error and then runs the middleware again around a
handler that attaches a query. -/
def sampleHandler : Handler :=
  .op (.logError (some "boom") "exception" none "e1" 12 "stack")
    (.nested { id := "r3", startTime := 13, clientIP := "127.0.0.1", endTime := 14,
               memAlloc := 4096 }
      (.op (.addCustomData "user" (.int 7)) .done) .done)

/-- The state `w1` differs from `w` only in the record at address `a`, which
is now `r1`: the store, the configuration, the number of records and every
other record are the same. -/
def OnlyRecordChanged (w w1 : World) (a : Nat) (r1 : RequestInfo) : Prop :=
  w1.d.store = w.d.store ∧ w1.d.config = w.d.config ∧ w1.heap.length = w.heap.length
    ∧ (∀ b, b ≠ a → w1.heap.get? b = w.heap.get? b) ∧ w1.heap.get? a = some r1

/-! ## Lemmas on the slice primitives -/

theorem goMake_ok (n : Nat) : goMake (n : Int) = .ok (List.replicate n none) := by
  simp [goMake]

theorem goCopy_same_length (dst src : List Ptr) (h : dst.length = src.length) :
    goCopy dst src = src := by
  simp [goCopy, h]

theorem sliceFrom_ok (s : List Ptr) (k : Nat) (h : k ≤ s.length) :
    sliceFrom s (k : Int) = .ok (s.drop k) := by
  have : ¬ ((s.length : Int) < (k : Int)) := by omega
  simp [sliceFrom, this]

theorem drop_last_append (c : Nat) (l r : List Ptr) :
    (l.drop (l.length - c) ++ r).drop ((l.drop (l.length - c) ++ r).length - c)
      = (l ++ r).drop ((l ++ r).length - c) := by
  by_cases h : l.length ≤ c
  · have : l.length - c = 0 := by omega
    simp [this]
  · have h1 : (l.drop (l.length - c) ++ r).length - c = r.length := by
      simp only [List.length_append, List.length_drop]; omega
    have h2 : (l ++ r).length - c = (l.length - c) + r.length := by
      simp only [List.length_append]; omega
    rw [h1, h2, ← List.drop_drop,
      List.drop_append_of_le_length (by omega : l.length - c ≤ l.length)]

/-! ## Lemmas on the store -/

theorem Add_below (s : RequestStore) (req : Ptr) (h : (s.requests.length : Int) < s.maxSize) :
    s.Add req = .ok { s with requests := s.requests ++ [req] } := by
  have : ¬ ((s.requests.length : Int) ≥ s.maxSize) := by omega
  simp only [RequestStore.Add, this, if_false]
  rfl

theorem Add_full (s : RequestStore) (req : Ptr) (h : s.maxSize ≤ (s.requests.length : Int))
    (h1 : 1 ≤ s.requests.length) :
    s.Add req = .ok { s with requests := s.requests.drop 1 ++ [req] } := by
  have h2 : (s.requests.length : Int) ≥ s.maxSize := by omega
  have h3 := sliceFrom_ok s.requests 1 h1
  simp only [Nat.cast_one] at h3
  simp only [RequestStore.Add, h2, if_true, h3]
  rfl

/-- With a capacity of at least one, `Add` completes, keeps the capacity, and
leaves the last `maxSize` elements of the old contents followed by `req`. -/
theorem Add_spec (s : RequestStore) (req : Ptr) (hC : 1 ≤ s.maxSize)
    (hb : (s.requests.length : Int) ≤ s.maxSize) :
    ∃ s1, s.Add req = .ok s1 ∧ s1.maxSize = s.maxSize ∧
      s1.requests = (s.requests ++ [req]).drop ((s.requests ++ [req]).length - s.maxSize.toNat) := by
  by_cases h : (s.requests.length : Int) < s.maxSize
  · refine ⟨_, Add_below s req h, rfl, ?_⟩
    have : (s.requests ++ [req]).length - s.maxSize.toNat = 0 := by
      simp only [List.length_append, List.length_singleton]; omega
    rw [this, List.drop_zero]
  · have h1 : 1 ≤ s.requests.length := by omega
    refine ⟨_, Add_full s req (by omega) h1, rfl, ?_⟩
    have : (s.requests ++ [req]).length - s.maxSize.toNat = 1 := by
      simp only [List.length_append, List.length_singleton]; omega
    rw [this, List.drop_append_of_le_length h1]

theorem addAll_spec (rs : List Ptr) : ∀ (s : RequestStore), 1 ≤ s.maxSize →
    (s.requests.length : Int) ≤ s.maxSize →
    ∃ s1, addAll s rs = .ok s1 ∧ s1.maxSize = s.maxSize ∧
      s1.requests = (s.requests ++ rs).drop ((s.requests ++ rs).length - s.maxSize.toNat) := by
  induction rs with
  | nil =>
    intro s _ hb
    refine ⟨s, rfl, rfl, ?_⟩
    have : (s.requests ++ []).length - s.maxSize.toNat = 0 := by
      simp only [List.append_nil]; omega
    rw [this, List.drop_zero, List.append_nil]
  | cons req rest ih =>
    intro s hC hb
    obtain ⟨s1, h1, hm1, hr1⟩ := Add_spec s req hC hb
    have hb1 : (s1.requests.length : Int) ≤ s1.maxSize := by
      rw [hr1, hm1]; simp only [List.length_drop, List.length_append, List.length_singleton]; omega
    obtain ⟨s2, h2, hm2, hr2⟩ := ih s1 (by omega) hb1
    refine ⟨s2, ?_, by omega, ?_⟩
    · simp only [addAll, h1]; exact h2
    · rw [hr2, hr1, hm1, drop_last_append]; simp

theorem GetAll_eq (s : RequestStore) : s.GetAll = .ok s.requests := by
  simp only [RequestStore.GetAll, goMake_ok]
  show Except.ok (goCopy _ _) = _
  rw [goCopy_same_length _ _ (by simp)]

theorem Clear_spec (s : RequestStore) (hC : 0 ≤ s.maxSize) :
    s.Clear = .ok { s with requests := [] } := by
  have : ¬ s.maxSize < 0 := by omega
  simp only [RequestStore.Clear, goMakeCap, this, if_false]; rfl

/-- With a capacity of at least one, every sequence of `Add` and `Clear` calls
completes, and after each call the store holds at most `maxSize` records. -/
theorem runOps_bounded (ops : List StoreOp) : ∀ (s : RequestStore), 1 ≤ s.maxSize →
    (s.requests.length : Int) ≤ s.maxSize →
    ∃ states, runOps s ops = .ok states ∧ states.length = ops.length ∧
      ∀ t ∈ states, t.maxSize = s.maxSize ∧ (t.requests.length : Int) ≤ s.maxSize := by
  induction ops with
  | nil => intro s _ _; exact ⟨[], rfl, rfl, by simp⟩
  | cons op rest ih =>
    intro s hC hb
    have hstep : ∃ s1, op.run s = .ok s1 ∧ s1.maxSize = s.maxSize ∧
        (s1.requests.length : Int) ≤ s.maxSize := by
      cases op with
      | add req =>
        obtain ⟨s1, h1, hm1, hr1⟩ := Add_spec s req hC hb
        refine ⟨s1, h1, hm1, ?_⟩
        rw [hr1]; simp only [List.length_drop, List.length_append, List.length_singleton]; omega
      | clear =>
        refine ⟨_, Clear_spec s (by omega), rfl, ?_⟩
        simp only [List.length_nil]; omega
    obtain ⟨s1, h1, hm1, hb1⟩ := hstep
    obtain ⟨later, h2, hl2, hall⟩ := ih s1 (by omega) (by omega)
    refine ⟨later ++ [s1], ?_, by simp [hl2], ?_⟩
    · simp only [runOps, h1]
      show (do let later ← runOps s1 rest; pure (later ++ [s1])) = _
      simp only [h2]; rfl
    · intro t ht
      rcases List.mem_append.mp ht with ht | ht
      · have := hall t ht
        exact ⟨by omega, by omega⟩
      · rw [List.mem_singleton.mp ht]; exact ⟨hm1, hb1⟩

theorem getLoop_spec (heap : Heap) (id : String) (l : List Ptr)
    (hv : ∀ p ∈ l, validPtr heap p = true) :
    (∃ pre a post r, l = pre ++ some a :: post ∧ heap.get? a = some r ∧ r.ID = id ∧
        (∀ q ∈ pre, ∀ r1, deref heap q = .ok r1 → r1.ID ≠ id) ∧
        getLoop heap id l = .ok (some a)) ∨
    ((∀ q ∈ l, ∀ r1, deref heap q = .ok r1 → r1.ID ≠ id) ∧ getLoop heap id l = .ok none) := by
  induction l with
  | nil => right; exact ⟨by simp, rfl⟩
  | cons p rest ih =>
    have hp := hv p (List.mem_cons_self _ _)
    cases p with
    | none => simp [validPtr] at hp
    | some a =>
      simp only [validPtr, decide_eq_true_eq] at hp
      obtain ⟨r, hr⟩ : ∃ r, heap.get? a = some r := ⟨heap.get ⟨a, hp⟩, List.get?_eq_get hp⟩
      have hd : deref heap (some a) = .ok r := by simp only [deref, hr]
      by_cases hid : r.ID = id
      · left
        refine ⟨[], a, rest, r, rfl, hr, hid, by simp, ?_⟩
        simp only [getLoop, hd]
        show (if r.ID = id then pure (some a) else getLoop heap id rest) = _
        rw [if_pos hid]; rfl
      · have hstep : getLoop heap id (some a :: rest) = getLoop heap id rest := by
          simp only [getLoop, hd]
          show (if r.ID = id then pure (some a) else getLoop heap id rest) = _
          rw [if_neg hid]
        have hq0 : ∀ r1, deref heap (some a) = .ok r1 → r1.ID ≠ id := by
          intro r1 h1
          rw [hd] at h1
          cases h1; exact hid
        rcases ih (fun q hq => hv q (List.mem_cons_of_mem _ hq)) with
          ⟨pre, b, post, r2, hl, hb, hbid, hpre, hres⟩ | ⟨hnone, hres⟩
        · left
          refine ⟨some a :: pre, b, post, r2, by rw [hl]; rfl, hb, hbid, ?_, by rw [hstep, hres]⟩
          intro q hq
          rcases List.mem_cons.mp hq with h | h
          · rw [h]; exact hq0
          · exact hpre q h
        · right
          refine ⟨?_, by rw [hstep, hres]⟩
          intro q hq
          rcases List.mem_cons.mp hq with h | h
          · rw [h]; exact hq0
          · exact hnone q h

/-! ## Lemmas on the heap, the hub and the finalization -/

theorem deref_of_get (heap : Heap) (a : Nat) (r : RequestInfo) (h : heap.get? a = some r) :
    deref heap (some a) = .ok r := by
  simp only [deref, h]

theorem get_of_lt (heap : Heap) (a : Nat) (h : a < heap.length) :
    ∃ r, heap.get? a = some r :=
  ⟨heap.get ⟨a, h⟩, List.get?_eq_get h⟩

theorem get_store_record (heap : Heap) (a b : Nat) (r : RequestInfo) :
    (store_record heap a r).get? b
      = if a = b then (heap.get? b).map (fun _ => r) else heap.get? b := by
  simp only [store_record, List.get?_eq_getElem?, List.getElem?_set]
  by_cases h : a = b
  · subst h
    by_cases hl : a < heap.length
    · simp [hl]
    · simp [hl, List.getElem?_eq_none (Nat.le_of_not_lt hl)]
  · simp [h]

theorem events_broadcast (d : DebugBar) (msg : WebSocketMessage) (h : d.wsHub ≠ none) :
    (d.broadcast msg).events = d.events ++ [msg] ∧ (d.broadcast msg).wsHub ≠ none
      ∧ (d.broadcast msg).store = d.store ∧ (d.broadcast msg).config = d.config := by
  cases hh : d.wsHub with
  | none => exact absurd hh h
  | some hub => simp [DebugBar.broadcast, DebugBar.events, WebSocketHub.Broadcast, hh]

/-- One run of the finalization on a valid record, with a store of capacity at
least one: it completes, performs one `Add` of the record and one broadcast of
`request_end`. -/
theorem finalizeRequest_spec (env : Env) (w : World) (c : GinContext) (a : Nat)
    (startTime written0 : Int) (ha : a < w.heap.length) (hcap : 1 ≤ w.d.store.maxSize)
    (hb : (w.d.store.requests.length : Int) ≤ w.d.store.maxSize) (hhub : w.d.wsHub ≠ none) :
    ∃ w1, finalizeRequest env w c (some a) startTime written0 = .ok w1
      ∧ w1.heap.length = w.heap.length
      ∧ w1.d.store.maxSize = w.d.store.maxSize
      ∧ w1.d.store.requests = (w.d.store.requests ++ [some a]).drop
          ((w.d.store.requests ++ [some a]).length - w.d.store.maxSize.toNat)
      ∧ w1.d.wsHub ≠ none
      ∧ w1.d.events = w.d.events
          ++ [{ Typ := MessageTypeRequestEnd, Payload := .request (some a) }] := by
  obtain ⟨r, hr⟩ := get_of_lt w.heap a ha
  obtain ⟨s1, hs1, hm1, hr1⟩ := Add_spec w.d.store (some a) hcap hb
  have hd := deref_of_get w.heap a r hr
  have hbc := events_broadcast { w.d with store := s1 }
    { Typ := MessageTypeRequestEnd, Payload := .request (some a) } hhub
  simp only [finalizeRequest, hd, DebugBar.storeRequest, hs1]
  refine ⟨_, rfl, ?_, ?_, ?_, ?_, ?_⟩
  · simp [store_record]
  · exact hbc.2.2.1 ▸ hm1
  · exact hbc.2.2.1 ▸ hr1
  · exact hbc.2.1
  · exact hbc.1

theorem broadcast_store (d : DebugBar) (msg : WebSocketMessage) :
    (d.broadcast msg).store = d.store ∧ (d.broadcast msg).config = d.config := by
  cases hh : d.wsHub <;> simp [DebugBar.broadcast, hh]

theorem mem_broadcast (d : DebugBar) (msg : WebSocketMessage) (p : Ptr)
    (h : p ∈ d.store.requests) : p ∈ (d.broadcast msg).store.requests := by
  rw [(broadcast_store d msg).1]; exact h

theorem deref_store_record (heap : Heap) (a : Nat) (r r1 : RequestInfo)
    (h : heap.get? a = some r) : deref (store_record heap a r1) (some a) = .ok r1 := by
  apply deref_of_get
  rw [get_store_record, if_pos rfl, h]; rfl

/-- One `addQuery` through a carrier bound to a valid record. -/
theorem addQuery_bound (w : World) (ctx : StdContext) (query : QueryInfo) (a : Nat)
    (r : RequestInfo) (hctx : GetRequestInfoFromContext ctx = some a)
    (hr : w.heap.get? a = some r) :
    ∃ w1, addQuery w ctx query = .ok w1
      ∧ w1.heap = store_record w.heap a
          { r with Queries := r.Queries ++ [{ query with RequestID := r.ID }] }
      ∧ w1.d = w.d.broadcast { Typ := MessageTypeQuery
                               Payload := .query { query with RequestID := r.ID } } := by
  simp only [addQuery, hctx, deref_of_get w.heap a r hr]
  exact ⟨_, rfl, rfl, rfl⟩

theorem addQueries_spec (calls : List (StdContext × QueryInfo)) : ∀ (w : World),
    (∀ call ∈ calls, ∀ a, GetRequestInfoFromContext call.1 = some a → a < w.heap.length) →
    ∃ w1, addQueries w calls = .ok w1 ∧ w1.heap.length = w.heap.length
      ∧ w1.d.store = w.d.store
      ∧ ∀ a r, w.heap.get? a = some r →
          w1.heap.get? a = some { r with Queries := r.Queries ++ attachedTo a r.ID calls } := by
  induction calls with
  | nil =>
    intro w _
    refine ⟨w, rfl, rfl, rfl, ?_⟩
    intro a r hr
    rw [hr]
    simp [attachedTo]
  | cons call rest ih =>
    intro w hv
    cases hp : GetRequestInfoFromContext call.1 with
    | none =>
      have hstep : addQuery w call.1 call.2 = .ok w := by
        simp only [addQuery, hp]; rfl
      obtain ⟨w1, h1, hl1, hs1, hq1⟩ := ih w (fun c hc => hv c (List.mem_cons_of_mem _ hc))
      refine ⟨w1, ?_, hl1, hs1, ?_⟩
      · simp only [addQueries, hstep]; exact h1
      · intro a r hr
        rw [hq1 a r hr]
        simp [attachedTo, List.filter_cons, hp]
    | some b =>
      have hb : b < w.heap.length := hv call (List.mem_cons_self _ _) b hp
      obtain ⟨rb, hrb⟩ := get_of_lt w.heap b hb
      obtain ⟨w0, hstep, hh0, hd0⟩ := addQuery_bound w call.1 call.2 b rb hp hrb
      have hlen : w0.heap.length = w.heap.length := by rw [hh0]; simp [store_record]
      obtain ⟨w1, h1, hl1, hs1, hq1⟩ := ih w0 (by
        intro c hc a ha
        rw [hlen]
        exact hv c (List.mem_cons_of_mem _ hc) a ha)
      refine ⟨w1, ?_, by rw [hl1]; exact hlen, ?_, ?_⟩
      · simp only [addQueries, hstep]; exact h1
      · rw [hs1, hd0]; exact (broadcast_store _ _).1
      · intro a r hr
        by_cases hab : b = a
        · subst hab
          have hrr : rb = r := by rw [hrb] at hr; exact Option.some.inj hr
          subst hrr
          have hget := hq1 b { rb with Queries := rb.Queries ++ [{ call.2 with RequestID := rb.ID }] }
            (by rw [hh0, get_store_record, if_pos rfl, hrb]; rfl)
          rw [hget]
          simp [attachedTo, List.filter_cons, hp]
        · have hget := hq1 a r (by rw [hh0, get_store_record, if_neg hab]; exact hr)
          rw [hget]
          have : (GetRequestInfoFromContext call.1 == some a) = false := by
            rw [hp]; simp [hab]
          simp [attachedTo, List.filter_cons, this]

/-! ## Lemmas on backing arrays -/

theorem getD_append_old (m : Arrays) (x : List Ptr) (a : Nat) (h : a < m.length) :
    (m ++ [x]).getD a [] = m.getD a [] := by
  simp [List.getD_eq_getElem?_getD, List.getElem?_append_left h]

theorem getD_append_new (m : Arrays) (x : List Ptr) : (m ++ [x]).getD m.length [] = x := by
  simp [List.getD_eq_getElem?_getD]

theorem set_append_new (m : Arrays) (x y : List Ptr) : (m ++ [x]).set m.length y = m ++ [y] := by
  simp [List.set_append]

theorem elems_append (m : Arrays) (x : List Ptr) (s : Slice) (h : s.arr < m.length) :
    s.elems (m ++ [x]) = s.elems m := by
  simp only [Slice.elems, getD_append_old m x s.arr h]

/-- Copying a slice into a new backing array of the same length leaves the old
arrays alone and makes the new array equal to the elements of the source. -/
theorem copy_into_new (m : Arrays) (src : Slice) (k : Nat) (hsrc : src.arr < m.length)
    (hlen : (src.elems m).length = k) :
    copySlice (m ++ [List.replicate k none]) { arr := m.length, off := 0, len := k } src
      = m ++ [src.elems m] := by
  have hdst : Slice.elems (m ++ [List.replicate k none]) { arr := m.length, off := 0, len := k }
      = List.replicate k none := by
    simp [Slice.elems, getD_append_new]
  simp only [copySlice, hdst, elems_append m _ src hsrc, getD_append_new,
    goCopy_same_length _ _ (by simp [hlen] : (List.replicate k (none : Ptr)).length
      = (src.elems m).length)]
  simp [set_append_new]

theorem elems_new (m : Arrays) (e : List Ptr) : Slice.elems (m ++ [e])
    { arr := m.length, off := 0, len := e.length } = e := by
  simp [Slice.elems, getD_append_new]

theorem setIndex_new (m : Arrays) (e : List Ptr) (i : Int) (v : Ptr) (m2 : Arrays)
    (h : Slice.setIndex (m ++ [e]) { arr := m.length, off := 0, len := e.length } i v = .ok m2) :
    ∃ e2, m2 = m ++ [e2] := by
  unfold Slice.setIndex at h
  split at h
  · cases h
  · cases h
    exact ⟨_, set_append_new m e _⟩

theorem elems_length (m : Arrays) (s : SliceStore) (h : s.WF m) :
    (s.requests.elems m).length = s.requests.len := by
  have := h.2
  simp only [Slice.elems, List.length_take, List.length_drop]
  omega

/-- The accessor `GetAll` over backing arrays: it allocates one new array holding the
elements of the store and returns the slice of that whole array. -/
theorem GetAll_arrays (m : Arrays) (s : SliceStore) (h : s.WF m) :
    s.GetAll m = .ok (m ++ [s.requests.elems m],
      { arr := m.length, off := 0, len := (s.requests.elems m).length }) := by
  have hl := elems_length m s h
  simp only [SliceStore.GetAll, makeSlice, Int.toNat_ofNat]
  have : ¬ ((s.requests.len : Int) < 0) := by omega
  simp only [this, if_false]
  show Except.ok (copySlice _ _ _, _) = _
  rw [copy_into_new m s.requests s.requests.len h.1 hl, hl]

/-- The accessor `GetRecent` over backing arrays, for `n ≥ 0`: it allocates one new array
holding the last `min(n, len)` elements of the store. -/
theorem GetRecent_arrays (m : Arrays) (s : SliceStore) (n : Int) (hn : 0 ≤ n) (h : s.WF m) :
    s.GetRecent m n = .ok (m ++ [(s.requests.elems m).drop (s.requests.len - min n.toNat s.requests.len)],
      { arr := m.length, off := 0,
        len := ((s.requests.elems m).drop (s.requests.len - min n.toNat s.requests.len)).length }) := by
  obtain ⟨k, rfl⟩ := Int.eq_ofNat_of_zero_le hn
  have hl := elems_length m s h
  have hclamp : (if (k : Int) > s.requests.len then (s.requests.len : Int) else (k : Int))
      = ((min k s.requests.len : Nat) : Int) := by
    split <;> omega
  have hsub : (s.requests.len : Int) - ((min k s.requests.len : Nat) : Int)
      = ((s.requests.len - min k s.requests.len : Nat) : Int) := by omega
  have hneg : ¬ (((min k s.requests.len : Nat) : Int) < 0) := by omega
  have hbound : ¬ ((((s.requests.len - min k s.requests.len : Nat) : Int) < 0)
      ∨ (s.requests.len : Int) < ((s.requests.len - min k s.requests.len : Nat) : Int)) := by
    omega
  simp only [SliceStore.GetRecent, hclamp, makeSlice, hneg, if_false, hsub, Slice.sliceFrom,
    hbound, Int.toNat_ofNat]
  show Except.ok (copySlice _ _ _, _) = _
  have hsrc : Slice.elems m { arr := s.requests.arr
                              off := s.requests.off + (s.requests.len - min k s.requests.len)
                              len := s.requests.len - (s.requests.len - min k s.requests.len) }
      = (s.requests.elems m).drop (s.requests.len - min k s.requests.len) := by
    simp only [Slice.elems, List.drop_take, List.drop_drop]
  have hlen2 : ((s.requests.elems m).drop (s.requests.len - min k s.requests.len)).length
      = min k s.requests.len := by
    simp only [List.length_drop, hl]; omega
  dsimp only
  rw [copy_into_new m { arr := s.requests.arr
                        off := s.requests.off + (s.requests.len - min k s.requests.len)
                        len := s.requests.len - (s.requests.len - min k s.requests.len) }
    (min k s.requests.len) h.1 (by rw [hsrc]; exact hlen2), hsrc, hlen2]

theorem readAll_eq (m : Arrays) (s : SliceStore) (h : s.WF m) :
    s.readAll m = .ok (s.requests.elems m) := by
  simp only [SliceStore.readAll, GetAll_arrays m s h]
  show Except.ok (Slice.elems _ _) = _
  rw [elems_new]

theorem readRecent_congr (m m2 : Arrays) (s : SliceStore) (k : Int) (h : s.WF m)
    (h2 : s.WF m2) (he : s.requests.elems m2 = s.requests.elems m) :
    s.readRecent m2 k = s.readRecent m k := by
  by_cases hk : 0 ≤ k
  · simp only [SliceStore.readRecent, GetRecent_arrays m s k hk h, GetRecent_arrays m2 s k hk h2]
    show Except.ok (Slice.elems _ _) = Except.ok (Slice.elems _ _)
    rw [elems_new, elems_new, he]
  · have hc : (if k > (s.requests.len : Int) then (s.requests.len : Int) else k) = k := by
      split <;> omega
    have hneg : k < 0 := by omega
    simp only [SliceStore.readRecent, SliceStore.GetRecent, hc, makeSlice, hneg, if_true]

theorem getLoop_mem (heap : Heap) (id : String) (l : List Ptr) (a : Nat)
    (h : getLoop heap id l = .ok (some a)) : some a ∈ l := by
  induction l with
  | nil => simp [getLoop] at h
  | cons req rest ih =>
    unfold getLoop at h
    cases hd : deref heap req with
    | error e => rw [hd] at h; cases h
    | ok r =>
      rw [hd] at h
      by_cases hid : r.ID = id
      · have h1 : (Except.ok req : Except Fault Ptr) = .ok (some a) := by
          have : (if r.ID = id then pure req else getLoop heap id rest) = Except.ok (some a) := h
          rw [if_pos hid] at this; exact this
        cases h1
        exact List.mem_cons_self _ _
      · have h1 : getLoop heap id rest = .ok (some a) := by
          have : (if r.ID = id then pure req else getLoop heap id rest) = Except.ok (some a) := h
          rw [if_neg hid] at this; exact this
        exact List.mem_cons_of_mem _ (ih h1)

/-- Writing to an element of a slice that owns a newly allocated array leaves
every read of the store as it was. -/
theorem write_to_new_array_frame (heap : Heap) (m : Arrays) (s : SliceStore) (e : List Ptr)
    (h : s.WF m) (i : Int) (v : Ptr) (m2 : Arrays)
    (hset : Slice.setIndex (m ++ [e]) { arr := m.length, off := 0, len := e.length } i v
      = .ok m2) :
    s.readAll m2 = s.readAll m
      ∧ (∀ k, s.readRecent m2 k = s.readRecent m k)
      ∧ (∀ id, s.Get heap m2 id = s.Get heap m id) := by
  obtain ⟨e2, rfl⟩ := setIndex_new m e i v m2 hset
  have he : s.requests.elems (m ++ [e2]) = s.requests.elems m := elems_append m e2 _ h.1
  have h2 : s.WF (m ++ [e2]) := by
    refine ⟨by simp only [List.length_append, List.length_singleton]; have := h.1; omega, ?_⟩
    rw [getD_append_old m e2 _ h.1]; exact h.2
  refine ⟨?_, ?_, ?_⟩
  · rw [readAll_eq _ s h2, readAll_eq m s h, he]
  · intro k; exact readRecent_congr m _ s k h h2 he
  · intro id; simp only [SliceStore.Get, he]

/-! ## Theorems on the store: capacity and eviction -/

/-- C1: for every capacity `C ≥ 1` and every sequence `rs` of more than `C`
`Add` calls on `NewRequestStore(C)`, `GetAll` returns exactly the last `C`
elements of `rs`, in insertion order (oldest first). -/
theorem store_retains_most_recent (C : Int) (hC : 1 ≤ C) (rs : List Ptr)
    (hlen : C < (rs.length : Int)) :
    (do let s ← NewRequestStore C; let s ← addAll s rs; s.GetAll)
        = .ok (rs.drop (rs.length - C.toNat))
      ∧ ((rs.drop (rs.length - C.toNat)).length : Int) = C
      ∧ ∃ evicted, rs = evicted ++ rs.drop (rs.length - C.toNat) := by
  have h0 : NewRequestStore C = .ok { requests := [], maxSize := C } := by
    have : ¬ C < 0 := by omega
    simp only [NewRequestStore, goMakeCap, this, if_false]; rfl
  obtain ⟨s1, h1, _, hr1⟩ := addAll_spec rs { requests := [], maxSize := C } hC
    (by simp only [List.length_nil]; omega)
  refine ⟨?_, ?_, rs.take (rs.length - C.toNat), (List.take_append_drop _ _).symm⟩
  · simp only [h0]
    show (do let s ← addAll _ rs; s.GetAll) = _
    simp only [h1]
    show s1.GetAll = _
    rw [GetAll_eq, hr1]; simp
  · simp only [List.length_drop]; omega

theorem store_retains_most_recent_witness :
    (1 : Int) ≤ 2 ∧ (2 : Int) < (([some 1, some 2, some 3] : List Ptr).length : Int) ∧
    (do let s ← NewRequestStore 2; let s ← addAll s [some 1, some 2, some 3]; s.GetAll)
        = .ok [some 2, some 3] :=
  ⟨by decide, by decide,
    (store_retains_most_recent 2 (by decide) [some 1, some 2, some 3] (by decide)).1⟩

/-- C2 (the code fails the claim at capacity 0): on `NewRequestStore(0)` the
first `Add` of any sequence of calls panics in `s.requests[1:]` (slice bounds
out of range), so not every call completes. -/
theorem add_on_capacity_zero_panics (req : Ptr) (rest : List StoreOp) :
    (do let s ← NewRequestStore 0; runOps s (StoreOp.add req :: rest))
      = .error Fault.sliceBounds := by
  rfl

/-! ## Theorems on the request lifecycle -/

/-- The finalization has no guard of its own: applied twice to one record,
which no run of the program does, it stores the record twice and broadcasts
`request_end` twice. Here on a store of capacity 2. -/
theorem finalizeRequest_twice_example :
    (do let w1 ← finalizeRequest sampleEnv (sampleWorld true) (sampleContext 0) (some 0) 10 0
        let w2 ← finalizeRequest sampleEnv w1 (sampleContext 0) (some 0) 10 0
        pure (w1.d.store.requests, countEvents w1.d MessageTypeRequestEnd,
              w2.d.store.requests, countEvents w2.d MessageTypeRequestEnd))
      = .ok ([some 0], 1, [some 0, some 0], 2) := by
  decide

/-- The finalization applied twice to one record, which no run of the program
does: on a store of capacity at least one, each
application performs one `Add` of the record (the store keeps its last
`maxSize` elements) and broadcasts one `request_end`. -/
theorem finalizeRequest_twice (env1 env2 : Env) (w : World) (c1 c2 : GinContext) (a : Nat)
    (start1 start2 written1 written2 : Int) (ha : a < w.heap.length)
    (hcap : 1 ≤ w.d.store.maxSize)
    (hb : (w.d.store.requests.length : Int) ≤ w.d.store.maxSize) (hhub : w.d.wsHub ≠ none) :
    ∃ w1 w2, finalizeRequest env1 w c1 (some a) start1 written1 = .ok w1
      ∧ finalizeRequest env2 w1 c2 (some a) start2 written2 = .ok w2
      ∧ w1.d.store.requests = (w.d.store.requests ++ [some a]).drop
          ((w.d.store.requests ++ [some a]).length - w.d.store.maxSize.toNat)
      ∧ w2.d.store.requests = (w.d.store.requests ++ [some a, some a]).drop
          ((w.d.store.requests ++ [some a, some a]).length - w.d.store.maxSize.toNat)
      ∧ w1.d.events = w.d.events
          ++ [{ Typ := MessageTypeRequestEnd, Payload := .request (some a) }]
      ∧ w2.d.events = w.d.events
          ++ [{ Typ := MessageTypeRequestEnd, Payload := .request (some a) },
              { Typ := MessageTypeRequestEnd, Payload := .request (some a) }] := by
  obtain ⟨w1, h1, hl1, hm1, hr1, hh1, he1⟩ :=
    finalizeRequest_spec env1 w c1 a start1 written1 ha hcap hb hhub
  have hb1 : (w1.d.store.requests.length : Int) ≤ w1.d.store.maxSize := by
    rw [hr1, hm1]; simp only [List.length_drop, List.length_append, List.length_singleton]; omega
  obtain ⟨w2, h2, _, _, hr2, _, he2⟩ :=
    finalizeRequest_spec env2 w1 c2 a start2 written2 (by omega) (by omega) hb1 hh1
  refine ⟨w1, w2, h1, h2, hr1, ?_, he1, ?_⟩
  · rw [hr2, hr1, hm1, drop_last_append]; simp
  · rw [he2, he1]; simp

theorem finalizeRequest_twice_instance :
    (0 : Nat) < (sampleWorld true).heap.length ∧ 1 ≤ (sampleWorld true).d.store.maxSize
      ∧ ((sampleWorld true).d.store.requests.length : Int) ≤ (sampleWorld true).d.store.maxSize
      ∧ (sampleWorld true).d.wsHub ≠ none
      ∧ ∃ w1 w2, finalizeRequest sampleEnv (sampleWorld true) (sampleContext 0) (some 0) 10 0
            = .ok w1
          ∧ finalizeRequest sampleEnv w1 (sampleContext 0) (some 0) 10 0 = .ok w2 :=
  ⟨by decide, by decide, by decide, by decide,
    (finalizeRequest_twice sampleEnv sampleEnv (sampleWorld true) (sampleContext 0) (sampleContext 0)
      0 10 10 0 0 (by decide) (by decide) (by decide) (by decide)).imp
      (fun _ h => h.imp (fun _ h => ⟨h.1, h.2.1⟩))⟩

/-- With tracking disabled the middleware only runs the rest of the chain. -/
theorem ginMiddleware_disabled (next : World → GinContext → Except Fault (World × GinContext))
    (env : Env) (w : World) (c : GinContext) (h : w.d.config.Enabled = false) :
    ginMiddleware next env w c = next w c := by
  simp [ginMiddleware, h]

/-- With tracking disabled `logError` changes nothing. -/
theorem logError_disabled (w : World) (c : GinContext) (err : Option String) (errType : String)
    (ctx : Option (GoMap AnyVal)) (id : String) (now : Int) (stack : String)
    (h : w.d.config.Enabled = false) :
    logError w c err errType ctx id now stack = .ok w := by
  simp only [logError, h]; rfl

/-- With tracking disabled the GORM callbacks change nothing. -/
theorem gorm_callbacks_disabled (w : World) (db : GormDB) (now : Int) (id source : String)
    (h : w.d.config.Enabled = false) :
    beforeCallback w db now id = db ∧ afterCallback w db now source = .ok w := by
  constructor
  · simp [beforeCallback, h]
  · simp only [afterCallback, h]; rfl

/-- C4 (the code fails the claim for `AddError` and `AddCustomData`): on a
disabled debug bar, with a record bound in the gin context, `AddError`
appends an error to the record and broadcasts an `error` message, and
`AddCustomData` writes the record's custom data. Neither reads
`config.Enabled`, which `logError` does. The last part reaches such a state
through the code: the middleware opens a request, the handler calls
`SetEnabled(false)` and then `AddError`. -/
theorem AddError_when_disabled_mutates :
    (sampleWorld false).d.config.Enabled = false
      ∧ (do let w ← AddError (sampleWorld false) (sampleContext 0) (some "boom")
                  ErrorTypeException none "e1" "stack"
            let r ← deref w.heap (some 0)
            pure (r.Errors.map (fun (e : ErrorInfo) => e.Message),
                  w.d.events.map (fun (m : WebSocketMessage) => m.Typ)))
          = .ok (["boom"], ["error"])
      ∧ (do let w ← AddCustomData (sampleWorld false) (sampleContext 0) "user" (.int 7)
            let r ← deref w.heap (some 0)
            pure r.CustomData)
          = .ok (some [("user", .int 7)])
      ∧ logError (sampleWorld false) (sampleContext 0) (some "boom") ErrorTypeException none
          "e1" 0 "stack" = .ok (sampleWorld false)
      ∧ (do let opened := openRequest sampleEnv (sampleWorld true) incomingContext
            let w := { opened.1 with d := opened.1.d.SetEnabled false }
            let w1 ← AddError w opened.2.1 (some "boom") ErrorTypeException none "e1" "stack"
            let r ← deref w1.heap (some opened.2.2)
            pure (w.d.config.Enabled, r.Errors.map (fun (e : ErrorInfo) => e.Message),
                  w1.d.events.map (fun (m : WebSocketMessage) => m.Typ)))
          = .ok (false, ["boom"], ["request", "error"]) := by
  decide

/-- C5 (counterexample): the middleware creates, finalizes and stores the
record `r2`; a later `addQuery` with the request context the middleware bound
changes the record the store holds (its queries go from none to `q1`). -/
theorem stored_record_mutated_counterexample :
    (do let done ← ginMiddleware (fun w c => pure (w, c)) sampleEnv (sampleWorld true)
                      incomingContext
        let p ← done.1.d.store.Get done.1.heap "r2"
        let before ← deref done.1.heap p
        let w2 ← addQuery done.1 done.2.Request.ctx (sampleQuery "q1")
        let q ← w2.d.store.Get w2.heap "r2"
        let after ← deref w2.heap q
        pure (p, q, before.Queries.map (fun (x : QueryInfo) => x.ID),
              after.Queries.map (fun (x : QueryInfo) => x.ID)))
      = .ok (some 2, some 2, [], ["q1"]) := by
  decide

/-- C5 (amended): a finalized and stored record is not frozen. The store and
the carrier hold the same pointer, so a later attach operation through the
carrier leaves the store's sequence of pointers unchanged but updates the
record it points to: `addQuery` appends the query (stamped with the record's
ID) to `Queries`, `AddError` and, when tracking is enabled, `logError` append
the error to `Errors`, and `AddCustomData` sets the key in `CustomData`. -/
theorem attach_after_finish_updates_stored_record (w : World) (c : GinContext)
    (ctx : StdContext) (a : Nat) (r : RequestInfo) (query : QueryInfo) (message errType : String)
    (ectx : Option (GoMap AnyVal)) (id : String) (now : Int) (stack key : String)
    (value : AnyVal)
    (hr : w.heap.get? a = some r) (hstored : some a ∈ w.d.store.requests)
    (hc : GetRequestInfo c = some a) (hctx : GetRequestInfoFromContext ctx = some a) :
    (∃ w1, addQuery w ctx query = .ok w1 ∧ w1.d.store = w.d.store
        ∧ ∃ p ∈ w1.d.store.requests, p = some a ∧ deref w1.heap p
            = .ok { r with Queries := r.Queries ++ [{ query with RequestID := r.ID }] })
      ∧ (∃ w1, AddError w c (some message) errType ectx id stack = .ok w1
        ∧ w1.d.store = w.d.store
        ∧ ∃ p ∈ w1.d.store.requests, p = some a ∧ deref w1.heap p
            = .ok { r with Errors := r.Errors ++
                [{ ID := id, RequestID := r.ID, Message := message, Stack := stack,
                   Typ := errType, Timestamp := 0, Context := ectx }] })
      ∧ (w.d.config.Enabled = true →
          ∃ w1, logError w c (some message) errType ectx id now stack = .ok w1
        ∧ w1.d.store = w.d.store
        ∧ ∃ p ∈ w1.d.store.requests, p = some a ∧ deref w1.heap p
            = .ok { r with Errors := r.Errors ++
                [{ ID := id, RequestID := r.ID, Message := message, Stack := stack,
                   Typ := errType, Timestamp := now, Context := ectx }] })
      ∧ (∃ w1, AddCustomData w c key value = .ok w1 ∧ w1.d.store = w.d.store
        ∧ ∃ p ∈ w1.d.store.requests, p = some a ∧ deref w1.heap p
            = .ok { r with CustomData := some (GoMap.set (r.CustomData.getD []) key value) }) := by
  have hd := deref_of_get w.heap a r hr
  refine ⟨?_, ?_, ?_, ?_⟩
  · simp only [addQuery, hctx, hd]
    refine ⟨_, rfl, (broadcast_store _ _).1, some a, ?_, rfl, deref_store_record _ _ _ _ hr⟩
    exact mem_broadcast _ _ _ hstored
  · simp only [AddError, hc, hd]
    refine ⟨_, rfl, (broadcast_store _ _).1, some a, ?_, rfl, deref_store_record _ _ _ _ hr⟩
    exact mem_broadcast _ _ _ hstored
  · intro hen
    simp only [logError, hen, hc, hd]
    refine ⟨_, rfl, (broadcast_store _ _).1, some a, ?_, rfl, deref_store_record _ _ _ _ hr⟩
    exact mem_broadcast _ _ _ hstored
  · simp only [AddCustomData, hc, hd]
    refine ⟨_, rfl, rfl, some a, hstored, rfl, ?_⟩
    rw [deref_store_record _ _ _ _ hr]
    cases r.CustomData <;> rfl

theorem attach_after_finish_updates_stored_record_witness :
    List.get? [sampleRecord "r0", sampleRecord "r1"] 0 = some (sampleRecord "r0")
      ∧ some 0 ∈ ([some 0] : List Ptr)
      ∧ GetRequestInfo (sampleContext 0) = some 0
      ∧ GetRequestInfoFromContext (sampleRequest 0).ctx = some 0
      ∧ ∃ w1, addQuery { heap := [sampleRecord "r0", sampleRecord "r1"]
                         d := { sampleBar true with
                                store := { requests := [some 0], maxSize := 2 } } }
            (sampleRequest 0).ctx (sampleQuery "q1") = .ok w1
          ∧ w1.d.store = { requests := [some 0], maxSize := 2 } :=
  ⟨rfl, by decide, by decide, by decide,
    (attach_after_finish_updates_stored_record
      { heap := [sampleRecord "r0", sampleRecord "r1"]
        d := { sampleBar true with store := { requests := [some 0], maxSize := 2 } } }
      (sampleContext 0) (sampleRequest 0).ctx 0 (sampleRecord "r0") (sampleQuery "q1")
      "boom" ErrorTypeException none "e1" 0 "stack" "user" (.int 7)
      rfl (by decide) (by decide) (by decide)).1.imp (fun _ h => ⟨h.1, h.2.1⟩)⟩

/-- C6: with a carrier in which no request record is bound (the key is absent,
or holds a value that is not a pointer to a record), `addQuery`, `logError`,
`AddError` and `AddCustomData` return normally and leave the whole state (all
records, the store, the broadcast messages) unchanged. -/
theorem unbound_carrier_is_noop (w : World) (c : GinContext) (ctx : StdContext)
    (query : QueryInfo) (err : Option String) (errType : String)
    (ectx : Option (GoMap AnyVal)) (id : String) (now : Int) (stack key : String)
    (value : AnyVal)
    (hc : ∀ a, c.Get DebugBarContextKey.name ≠ some (.reqInfo (some a)))
    (hctx : ∀ a, ctx.Value DebugBarContextKey ≠ some (.reqInfo (some a))) :
    addQuery w ctx query = .ok w
      ∧ logError w c err errType ectx id now stack = .ok w
      ∧ AddError w c err errType ectx id stack = .ok w
      ∧ AddCustomData w c key value = .ok w := by
  have h1 : GetRequestInfo c = none := by
    unfold GetRequestInfo
    split
    · next p hp =>
      cases p with
      | none => rfl
      | some a => exact absurd hp (hc a)
    · rfl
  have h2 : GetRequestInfoFromContext ctx = none := by
    unfold GetRequestInfoFromContext
    split
    · next p hp =>
      cases p with
      | none => rfl
      | some a => exact absurd hp (hctx a)
    · rfl
  refine ⟨?_, ?_, ?_, ?_⟩
  · simp only [addQuery, h2]; rfl
  · unfold logError
    split
    · rfl
    · simp only [h1]; rfl
  · simp only [AddError, h1]; rfl
  · simp only [AddCustomData, h1]; rfl

theorem unbound_carrier_is_noop_witness :
    (∀ a, incomingContext.Get DebugBarContextKey.name ≠ some (.reqInfo (some a)))
      ∧ (∀ a, StdContext.Value [] DebugBarContextKey ≠ some (.reqInfo (some a)))
      ∧ addQuery (sampleWorld true) [] (sampleQuery "q1") = .ok (sampleWorld true)
      ∧ logError (sampleWorld true) incomingContext (some "boom") ErrorTypeException none
          "e1" 0 "stack" = .ok (sampleWorld true)
      ∧ AddError (sampleWorld true) incomingContext (some "boom") ErrorTypeException none
          "e1" "stack" = .ok (sampleWorld true)
      ∧ AddCustomData (sampleWorld true) incomingContext "user" (.int 7)
          = .ok (sampleWorld true) :=
  ⟨(by intro a h; cases h), (by intro a h; cases h),
    unbound_carrier_is_noop (sampleWorld true) incomingContext [] (sampleQuery "q1")
      (some "boom") ErrorTypeException none "e1" 0 "stack" "user" (.int 7)
      (by intro a h; cases h) (by intro a h; cases h)⟩

/-- The record the middleware creates has no queries and no errors, and both
carriers are bound to it. -/
theorem openRequest_spec (env : Env) (w : World) (c : GinContext) :
    ∃ r, (openRequest env w c).1.heap = w.heap ++ [r] ∧ r.ID = env.id
      ∧ r.Queries = [] ∧ r.Errors = []
      ∧ (openRequest env w c).2.2 = w.heap.length
      ∧ (openRequest env w c).1.d.store = w.d.store
      ∧ GetRequestInfoFromContext (openRequest env w c).2.1.Request.ctx = some w.heap.length
      ∧ GetRequestInfo (openRequest env w c).2.1 = some w.heap.length := by
  refine ⟨_, rfl, ?_, ?_, ?_, rfl, (broadcast_store _ _).1, ?_, ?_⟩
  · cases h : (captureBody w.d.config c.Request).1 <;> simp [h]
  · cases h : (captureBody w.d.config c.Request).1 <;> simp [h]
  · cases h : (captureBody w.d.config c.Request).1 <;> simp [h]
  · simp [openRequest, GetRequestInfoFromContext, StdContext.Value, StdContext.WithValue]
  · simp [openRequest, GetRequestInfo, GinContext.Get, GinContext.Set, GoMap.get, GoMap.set]

/-- C7: for every interleaved sequence of `addQuery` calls made with carriers
bound to request records, each record's `Queries` is its old `Queries`
followed by exactly the queries attached with its own carrier, in call order,
each with `RequestID` overwritten by the record's ID; the record's ID is
unchanged. For a record that had no queries (as when the middleware creates
it) the length of `Queries` is the number of calls made with its carrier. -/
theorem queries_follow_carrier (w : World) (calls : List (StdContext × QueryInfo))
    (hcarriers : ∀ call ∈ calls, ∀ a,
      GetRequestInfoFromContext call.1 = some a → a < w.heap.length) :
    ∃ w1, addQueries w calls = .ok w1 ∧
      ∀ a r, w.heap.get? a = some r →
        ∃ r1, w1.heap.get? a = some r1 ∧ r1.ID = r.ID
          ∧ r1.Queries = r.Queries ++
              (calls.filter (fun call => GetRequestInfoFromContext call.1 == some a)).map
                (fun call => { call.2 with RequestID := r.ID })
          ∧ (r.Queries = [] → r1.Queries.length
              = (calls.filter (fun call => GetRequestInfoFromContext call.1 == some a)).length) := by
  obtain ⟨w1, h1, _, _, hq⟩ := addQueries_spec calls w hcarriers
  refine ⟨w1, h1, ?_⟩
  intro a r hr
  refine ⟨_, hq a r hr, rfl, rfl, ?_⟩
  intro hempty
  simp [hempty, attachedTo]

theorem queries_follow_carrier_witness :
    (∀ call ∈ [((sampleRequest 0).ctx, sampleQuery "q1"), ((sampleRequest 1).ctx, sampleQuery "q2"),
                ((sampleRequest 0).ctx, sampleQuery "q3")],
        ∀ a, GetRequestInfoFromContext call.1 = some a → a < (sampleWorld true).heap.length)
      ∧ ∃ w1, addQueries (sampleWorld true)
          [((sampleRequest 0).ctx, sampleQuery "q1"), ((sampleRequest 1).ctx, sampleQuery "q2"),
           ((sampleRequest 0).ctx, sampleQuery "q3")] = .ok w1
        ∧ ∃ r1, w1.heap.get? 0 = some r1 ∧ r1.ID = "r0"
          ∧ r1.Queries = [{ sampleQuery "q1" with RequestID := "r0" },
                          { sampleQuery "q3" with RequestID := "r0" }] :=
  have hv : ∀ call ∈ [((sampleRequest 0).ctx, sampleQuery "q1"),
      ((sampleRequest 1).ctx, sampleQuery "q2"), ((sampleRequest 0).ctx, sampleQuery "q3")],
      ∀ a, GetRequestInfoFromContext call.1 = some a → a < (sampleWorld true).heap.length := by
    intro call hcall a ha
    simp only [List.mem_cons, List.mem_singleton, List.not_mem_nil, or_false] at hcall
    rcases hcall with h | h | h <;> subst h <;> cases ha <;> decide
  ⟨hv, (queries_follow_carrier (sampleWorld true) _ hv).imp (fun _ h =>
    ⟨h.1, (h.2 0 (sampleRecord "r0") rfl).imp (fun _ h1 => ⟨h1.1, h1.2.1, h1.2.2.1⟩)⟩)⟩

/-! ## Theorems on the accessors of the store -/

/-- C8 (counterexample): `Get` returns the stored pointer itself, not a copy.
A caller that assigns to the `ID` of the record it obtained from `Get("r0")`
changes what the next `Get("r0")` returns (nil instead of the record), and
what a record reached through `GetAll` contains. -/
theorem accessor_record_is_shared_counterexample :
    (do let p ← SliceStore.Get [sampleRecord "r0", sampleRecord "r1"] [[some 0, some 1]]
                  { requests := { arr := 0, off := 0, len := 2 }, maxSize := 2 } "r0"
        let heap1 ← assignID [sampleRecord "r0", sampleRecord "r1"] p "changed"
        let q ← SliceStore.Get heap1 [[some 0, some 1]]
                  { requests := { arr := 0, off := 0, len := 2 }, maxSize := 2 } "r0"
        let all ← SliceStore.readAll [[some 0, some 1]]
                  { requests := { arr := 0, off := 0, len := 2 }, maxSize := 2 }
        let first ← deref heap1 (all.headD none)
        pure (p, q, first.ID))
      = .ok (some 0, none, "changed") := by
  decide

/-- C8 (amended): `GetAll` and `GetRecent` return a newly allocated sequence
whose elements are the store's own record pointers, in the same order, and
`Get` returns one of the store's own pointers. Assigning to an element of a
sequence obtained from `GetAll` or `GetRecent` never changes what a later
`Get`, `GetAll` or `GetRecent` returns. (The records themselves are shared
with the store, not copied.) -/
theorem accessors_copy_sequence_share_records (heap : Heap) (m : Arrays) (s : SliceStore)
    (n : Int) (hn : 0 ≤ n) (hwf : s.WF m) :
    (∃ m1 res, s.GetAll m = .ok (m1, res)
        ∧ res.elems m1 = s.requests.elems m
        ∧ ∀ i v m2, res.setIndex m1 i v = .ok m2 →
            s.readAll m2 = s.readAll m
              ∧ (∀ k, s.readRecent m2 k = s.readRecent m k)
              ∧ (∀ id, s.Get heap m2 id = s.Get heap m id))
      ∧ (∃ m1 res, s.GetRecent m n = .ok (m1, res)
        ∧ res.elems m1 = (s.requests.elems m).drop (s.requests.len - min n.toNat s.requests.len)
        ∧ ∀ i v m2, res.setIndex m1 i v = .ok m2 →
            s.readAll m2 = s.readAll m
              ∧ (∀ k, s.readRecent m2 k = s.readRecent m k)
              ∧ (∀ id, s.Get heap m2 id = s.Get heap m id))
      ∧ (∀ id a, s.Get heap m id = .ok (some a) → some a ∈ s.requests.elems m) := by
  refine ⟨⟨_, _, GetAll_arrays m s hwf, elems_new _ _, ?_⟩,
    ⟨_, _, GetRecent_arrays m s n hn hwf, elems_new _ _, ?_⟩, ?_⟩
  · intro i v m2 hset
    exact write_to_new_array_frame heap m s _ hwf i v m2 hset
  · intro i v m2 hset
    exact write_to_new_array_frame heap m s _ hwf i v m2 hset
  · intro id a h
    exact getLoop_mem heap id _ a h

theorem accessors_copy_sequence_share_records_witness :
    (0 : Int) ≤ 1
      ∧ SliceStore.WF [[some 5, some 0, some 1, none]]
          { requests := { arr := 0, off := 1, len := 2 }, maxSize := 3 }
      ∧ ∃ m1 res, SliceStore.GetAll [[some 5, some 0, some 1, none]]
            { requests := { arr := 0, off := 1, len := 2 }, maxSize := 3 } = .ok (m1, res)
          ∧ res.elems m1 = [some 0, some 1] :=
  ⟨by decide, by decide,
    (accessors_copy_sequence_share_records [sampleRecord "r0", sampleRecord "r1"]
      [[some 5, some 0, some 1, none]]
      { requests := { arr := 0, off := 1, len := 2 }, maxSize := 3 } 1 (by decide)
      (by decide)).1.imp (fun _ h => h.imp (fun _ h1 => ⟨h1.1, h1.2.1⟩))⟩

/-- C9: for every store state and every `n ≥ 0`, `GetRecent(n)` returns the
last `min(n, size)` stored records in insertion order (oldest first), and it
equals `GetAll()` whenever `n ≥ size`. It leaves the store unchanged: over
backing arrays, for every slice store that stands for the state, the call
returns the same records and the store's contents afterwards are the same. -/
theorem GetRecent_spec (s : RequestStore) (n : Int) (hn : 0 ≤ n) :
    s.GetRecent n = .ok (s.requests.drop (s.requests.length - min n.toNat s.requests.length))
      ∧ (s.requests.drop (s.requests.length - min n.toNat s.requests.length)).length
          = min n.toNat s.requests.length
      ∧ ((s.requests.length : Int) ≤ n → s.GetRecent n = s.GetAll)
      ∧ (∀ (m : Arrays) (ss : SliceStore), ss.WF m → ss.abs m = s →
          ∃ m1 res, ss.GetRecent m n = .ok (m1, res)
            ∧ res.elems m1
                = s.requests.drop (s.requests.length - min n.toNat s.requests.length)
            ∧ ss.abs m1 = s) := by
  have key : s.GetRecent n
      = .ok (s.requests.drop (s.requests.length - min n.toNat s.requests.length)) := by
    obtain ⟨k, rfl⟩ := Int.eq_ofNat_of_zero_le hn
    have hclamp : (if (k : Int) > s.requests.length then (s.requests.length : Int) else (k : Int))
        = ((min k s.requests.length : Nat) : Int) := by
      split <;> omega
    have hsub : (s.requests.length : Int) - ((min k s.requests.length : Nat) : Int)
        = ((s.requests.length - min k s.requests.length : Nat) : Int) := by omega
    simp only [RequestStore.GetRecent, hclamp, goMake_ok, hsub,
      sliceFrom_ok s.requests _ (Nat.sub_le _ _), Int.toNat_ofNat]
    show Except.ok (goCopy _ _) = _
    rw [goCopy_same_length _ _ (by simp only [List.length_replicate, List.length_drop]; omega)]
  refine ⟨key, by simp only [List.length_drop]; omega, ?_, ?_⟩
  · intro hle
    rw [key, GetAll_eq]
    have : s.requests.length - min n.toNat s.requests.length = 0 := by omega
    rw [this, List.drop_zero]
  · intro m ss hwf habs
    have hl := elems_length m ss hwf
    have hreq : s.requests = ss.requests.elems m := by rw [← habs]; rfl
    refine ⟨_, _, GetRecent_arrays m ss n hn hwf, ?_, ?_⟩
    · rw [elems_new, hreq, hl]
    · rw [← habs]
      simp only [SliceStore.abs, elems_append m _ ss.requests hwf.1]

theorem GetRecent_spec_witness :
    (0 : Int) ≤ 2 ∧
    (RequestStore.mk [some 0, some 1, some 2] 3).GetRecent 2 = .ok [some 1, some 2] :=
  ⟨by decide, (GetRecent_spec (RequestStore.mk [some 0, some 1, some 2] 3) 2 (by decide)).1⟩

/-- On a store whose elements all point to records, for every id, `Get(id)`
returns a record iff some stored record has that ID; the record returned is
the oldest stored record with that ID; `Get` returns nil otherwise, in
particular after `Clear`. -/
theorem Get_spec (heap : Heap) (s : RequestStore) (id : String) (hv : StoreValid heap s) :
    ∃ p, s.Get heap id = .ok p
      ∧ (p ≠ none ↔ ∃ q ∈ s.requests, ∃ r, deref heap q = .ok r ∧ r.ID = id)
      ∧ (∀ a, p = some a → ∃ older newer r, s.requests = older ++ some a :: newer
            ∧ deref heap (some a) = .ok r ∧ r.ID = id
            ∧ ∀ q ∈ older, ∀ r1, deref heap q = .ok r1 → r1.ID ≠ id)
      ∧ (∀ s1, s.Clear = .ok s1 → s1.Get heap id = .ok none) := by
  have hclear : ∀ s1, s.Clear = .ok s1 → s1.Get heap id = .ok none := by
    intro s1 h1
    unfold RequestStore.Clear goMakeCap at h1
    split at h1
    · cases h1
    · cases h1; rfl
  rcases getLoop_spec heap id s.requests hv with
    ⟨pre, a, post, r, hl, ha, hid, hpre, hres⟩ | ⟨hnone, hres⟩
  · have hd : deref heap (some a) = .ok r := by simp only [deref, ha]
    refine ⟨some a, hres, ?_, ?_, hclear⟩
    · constructor
      · intro _
        exact ⟨some a, by rw [hl]; simp, r, hd, hid⟩
      · intro _ h; cases h
    · intro b hb
      cases hb
      exact ⟨pre, post, r, hl, hd, hid, hpre⟩
  · refine ⟨none, hres, ?_, ?_, hclear⟩
    · constructor
      · intro h; exact absurd rfl h
      · rintro ⟨q, hq, r, hd, hid⟩
        exact absurd hid (hnone q hq r hd)
    · intro a h; cases h


theorem Get_spec_witness :
    StoreValid [sampleRecord "r0", sampleRecord "r1", sampleRecord "r0"]
        { requests := [some 1, some 0, some 2], maxSize := 3 }
      ∧ ∃ p, RequestStore.Get [sampleRecord "r0", sampleRecord "r1", sampleRecord "r0"]
          { requests := [some 1, some 0, some 2], maxSize := 3 } "r0" = .ok p ∧ p ≠ none :=
  ⟨by decide,
    (Get_spec [sampleRecord "r0", sampleRecord "r1", sampleRecord "r0"]
      { requests := [some 1, some 0, some 2], maxSize := 3 } "r0" (by decide)).imp
      (fun _ h => ⟨h.1, h.2.1.mpr ⟨some 0, by decide, sampleRecord "r0", rfl, rfl⟩⟩)⟩

/-! ## Theorems on the middleware and the attach operations -/

/-- For a tracked request the middleware runs the rest of the chain on the
state and the context produced by `openRequest`, and then the finalization. -/
theorem ginMiddleware_tracked (next : World → GinContext → Except Fault (World × GinContext))
    (env : Env) (w : World) (c : GinContext) (hen : w.d.config.Enabled = true)
    (hpath : c.Request.Path ≠ w.d.config.WebSocketPath) :
    ginMiddleware next env w c
      = (do let after ← next (openRequest env w c).1 (openRequest env w c).2.1
            let w3 ← finalizeRequest env after.1 after.2 (some (openRequest env w c).2.2)
                        env.startTime c.Writer.written
            pure (w3, after.2)) := by
  simp only [ginMiddleware, hen, hpath]
  rfl

/-- The request the handler sees is the one left by the body capture, with
the record bound in its context. -/
theorem openRequest_body (env : Env) (w : World) (c : GinContext) :
    (openRequest env w c).2.1.Request.Body = (captureBody w.d.config c.Request).2.Body := by
  rfl

/-- When the capture is on and the body can be read, the handler gets the
first `MaxBodySize` bytes of the body and nothing more; it gets the whole body
when the body is no longer than `MaxBodySize`. -/
theorem captureBody_keeps_first_bytes (config : Config) (req : Request) (body : Body)
    (hcap : config.CaptureRequestBody = true) (hbody : req.Body = some body)
    (hread : body.fails = false) :
    (captureBody config req).2.Body
        = some { data := body.data.take config.MaxBodySize.toNat, fails := false }
      ∧ (captureBody config req).1 = some (body.data.take config.MaxBodySize.toNat)
      ∧ ((body.data.length : Int) ≤ config.MaxBodySize →
          (captureBody config req).2.Body = some body) := by
  have key : captureBody config req
      = (some (body.data.take config.MaxBodySize.toNat),
         { req with Body := some { data := body.data.take config.MaxBodySize.toNat
                                   fails := false } }) := by
    simp only [captureBody, hbody, hcap, if_true, readAllLimited]
    by_cases h0 : config.MaxBodySize ≤ 0
    · have : config.MaxBodySize.toNat = 0 := by omega
      simp [h0, this]
    · by_cases h1 : config.MaxBodySize.toNat ≤ body.data.length
      · simp [h0, h1]
      · simp [h0, h1, hread, List.take_of_length_le (Nat.le_of_lt (Nat.lt_of_not_le h1))]
  refine ⟨by rw [key], by rw [key], ?_⟩
  intro hle
  rw [key]
  have : body.data.take config.MaxBodySize.toNat = body.data :=
    List.take_of_length_le (by omega)
  simp only [this]
  cases body
  simp only at hread
  simp [hread]

/-- With the capture on and a readable body, the handler reads the first
`MaxBodySize` bytes of the original body, for every body and every
`MaxBodySize`. -/
theorem handler_reads_first_bytes (env : Env) (w : World) (c : GinContext) (body : Body)
    (hcap : w.d.config.CaptureRequestBody = true) (hbody : c.Request.Body = some body)
    (hread : body.fails = false) :
    handlerReads (openRequest env w c).2.1 = body.data.take w.d.config.MaxBodySize.toNat := by
  simp only [handlerReads, openRequest_body,
    (captureBody_keeps_first_bytes w.d.config c.Request body hcap hbody hread).1]

/-- C11 (the code fails the claim when the body is longer than `MaxBodySize`):
with the capture on, a body of three bytes and `MaxBodySize = 2`, the handler
reads two bytes, not the three of the original body; with `MaxBodySize = 0`
it reads nothing. The body is read through `io.LimitReader` and only the
bytes read are put back. With `MaxBodySize = 3` the handler reads the whole
body. -/
theorem handler_reads_truncated_body :
    handlerReads postContext = [104, 105, 33]
      ∧ (captureWorld 2).d.config.CaptureRequestBody = true
      ∧ handlerReads (openRequest sampleEnv (captureWorld 2) postContext).2.1 = [104, 105]
      ∧ handlerReads (openRequest sampleEnv (captureWorld 0) postContext).2.1 = []
      ∧ handlerReads (openRequest sampleEnv (captureWorld 3) postContext).2.1 = [104, 105, 33]
      ∧ (do let done ← ginMiddleware
                (fun w c => do
                  let w1 ← AddCustomData w c "read" (.int (handlerReads c).length)
                  pure (w1, c))
                sampleEnv (captureWorld 2) postContext
            let r ← deref done.1.heap (some 0)
            pure (r.RequestBody, r.CustomData, done.1.d.store.requests))
          = .ok ([104, 105], some [("read", .int 2)], [some 0]) := by
  refine ⟨by decide, by decide, by decide, by decide, by decide, ?_⟩
  decide

/-- The finalization is `finalizeStored` followed by the `request_end`
broadcast. -/
theorem finalizeRequest_eq_stored (env : Env) (w : World) (c : GinContext) (p : Ptr)
    (startTime written0 : Int) :
    finalizeRequest env w c p startTime written0
      = (do let stored ← finalizeStored env w c p startTime written0
            pure { heap := stored.heap
                   d := stored.d.broadcast
                     { Typ := MessageTypeRequestEnd, Payload := .request p } }) := by
  unfold finalizeRequest finalizeStored
  cases hd : deref w.heap p with
  | error e => rfl
  | ok r =>
    cases hs : w.d.storeRequest p with
    | error e => simp only [hs]; rfl
    | ok d => simp only [hs]; rfl

/-- On a valid record and a store of capacity at least one, `finalizeStored`
completes, performs one `Add` of the record and broadcasts nothing. -/
theorem finalizeStored_spec (env : Env) (w : World) (c : GinContext) (a : Nat)
    (startTime written0 : Int) (ha : a < w.heap.length) (hcap : 1 ≤ w.d.store.maxSize)
    (hb : (w.d.store.requests.length : Int) ≤ w.d.store.maxSize) :
    ∃ stored, finalizeStored env w c (some a) startTime written0 = .ok stored
      ∧ stored.d.wsHub = w.d.wsHub
      ∧ stored.d.store.requests = (w.d.store.requests ++ [some a]).drop
          ((w.d.store.requests ++ [some a]).length - w.d.store.maxSize.toNat) := by
  obtain ⟨r, hr⟩ := get_of_lt w.heap a ha
  obtain ⟨s1, hs1, _, hr1⟩ := Add_spec w.d.store (some a) hcap hb
  have hd := deref_of_get w.heap a r hr
  simp only [finalizeStored, hd, DebugBar.storeRequest, hs1]
  exact ⟨_, rfl, rfl, hr1⟩

/-- For a tracked request the result of the middleware follows the steps of
`trackedRun`. -/
theorem ginMiddleware_steps (next : World → GinContext → Except Fault (World × GinContext))
    (env : Env) (w : World) (c : GinContext) (hen : w.d.config.Enabled = true)
    (hpath : c.Request.Path ≠ w.d.config.WebSocketPath) (after : World × GinContext)
    (stored : World)
    (hnext : next (openRequest env w c).1 (openRequest env w c).2.1 = .ok after)
    (hstored : finalizeStored env after.1 after.2 (some (openRequest env w c).2.2)
      env.startTime c.Writer.written = .ok stored) :
    ginMiddleware next env w c
        = .ok ({ heap := stored.heap
                 d := stored.d.broadcast
                   { Typ := MessageTypeRequestEnd
                     Payload := .request (some (openRequest env w c).2.2) } }, after.2)
      ∧ trackedRun next env w c
        = [(openRequest env w c).1, after.1, stored,
           { heap := stored.heap
             d := stored.d.broadcast
               { Typ := MessageTypeRequestEnd
                 Payload := .request (some (openRequest env w c).2.2) } }] := by
  constructor
  · rw [ginMiddleware_tracked next env w c hen hpath, hnext]
    show (do let w3 ← finalizeRequest env after.1 after.2 _ _ _; pure (w3, after.2)) = _
    rw [finalizeRequest_eq_stored, hstored]
    rfl
  · simp only [trackedRun, hnext, hstored]

/-- C12 (counterexample): a tracked request (tracking enabled, path `/users`)
whose handler panics. The run stops in the handler: its only state has the
`request` message broadcast and an empty store; nothing is inserted and no
`request_end` is broadcast, and the panic leaves the middleware. -/
theorem tracked_request_handler_panics_counterexample :
    (sampleWorld true).d.config.Enabled = true
      ∧ incomingContext.Request.Path ≠ (sampleWorld true).d.config.WebSocketPath
      ∧ ginMiddleware (fun _ _ => .error Fault.nilDeref) sampleEnv (sampleWorld true)
          incomingContext = .error Fault.nilDeref
      ∧ (trackedRun (fun _ _ => .error Fault.nilDeref) sampleEnv (sampleWorld true)
          incomingContext).map (fun w => (eventTypes w, w.d.store.requests))
          = [(["request"], [])] := by
  refine ⟨by decide, by decide, by decide, by decide⟩

/-- The run of the middleware around a rest of the chain given as an arbitrary
function. For every tracked request (tracking enabled, path different
from `WebSocketPath`) whose handler returns, on a debug bar with a hub and a
store of capacity at least one, the run of the middleware has four states in
this order. When the handler starts, one `request` message has been broadcast
and the new record is not in the store. When the handler has returned, the
middleware first performs one `Add` of the record, broadcasting nothing, and
then broadcasts one `request_end`, leaving the store as it is. If the handler
itself leaves the debug bar alone, the run broadcasts exactly `request` and
`request_end` and inserts exactly the new record. A request whose path equals
`WebSocketPath` only runs the rest of the chain: no record, no insertion, no
message. -/
theorem tracked_request_run (next : World → GinContext → Except Fault (World × GinContext))
    (env : Env) (w : World) (c : GinContext) (w2 : World) (c2 : GinContext)
    (hen : w.d.config.Enabled = true) (hpath : c.Request.Path ≠ w.d.config.WebSocketPath)
    (hhub : w.d.wsHub ≠ none) (hvalid : StoreValid w.heap w.d.store)
    (hnext : next (openRequest env w c).1 (openRequest env w c).2.1 = .ok (w2, c2))
    (hheap : w.heap.length < w2.heap.length) (hcap : 1 ≤ w2.d.store.maxSize)
    (hb : (w2.d.store.requests.length : Int) ≤ w2.d.store.maxSize)
    (hhub2 : w2.d.wsHub ≠ none) :
    (∃ s1 s3 s4, trackedRun next env w c = [s1, w2, s3, s4]
        ∧ ginMiddleware next env w c = .ok (s4, c2)
        ∧ s1.heap.length = w.heap.length + 1
        ∧ s1.d.events = w.d.events
            ++ [{ Typ := MessageTypeRequest, Payload := .request (some w.heap.length) }]
        ∧ s1.d.store = w.d.store
        ∧ some w.heap.length ∉ s1.d.store.requests
        ∧ s3.d.events = w2.d.events
        ∧ s3.d.store.requests = (w2.d.store.requests ++ [some w.heap.length]).drop
            ((w2.d.store.requests ++ [some w.heap.length]).length - w2.d.store.maxSize.toNat)
        ∧ s4.d.events = w2.d.events
            ++ [{ Typ := MessageTypeRequestEnd, Payload := .request (some w.heap.length) }]
        ∧ s4.d.store = s3.d.store
        ∧ (w2.d = s1.d →
            s4.d.events = w.d.events
              ++ [{ Typ := MessageTypeRequest, Payload := .request (some w.heap.length) },
                  { Typ := MessageTypeRequestEnd, Payload := .request (some w.heap.length) }]
            ∧ s4.d.store.requests = (w.d.store.requests ++ [some w.heap.length]).drop
                ((w.d.store.requests ++ [some w.heap.length]).length
                  - w.d.store.maxSize.toNat)))
      ∧ (∀ c1 : GinContext, c1.Request.Path = w.d.config.WebSocketPath →
          ginMiddleware next env w c1 = next w c1) := by
  have hopen := events_broadcast w.d
    { Typ := MessageTypeRequest, Payload := .request (some w.heap.length) } hhub
  have hfresh : some w.heap.length ∉ w.d.store.requests := by
    intro hmem
    have := hvalid _ hmem
    simp [validPtr] at this
  obtain ⟨stored, hstored, hshub, hsreq⟩ :=
    finalizeStored_spec env w2 c2 w.heap.length env.startTime c.Writer.written hheap hcap hb
  have hsev : stored.d.events = w2.d.events := by
    simp only [DebugBar.events, hshub]
  have hend := events_broadcast stored.d
    { Typ := MessageTypeRequestEnd, Payload := .request (some w.heap.length) }
    (by rw [hshub]; exact hhub2)
  obtain ⟨hres, hrun⟩ := ginMiddleware_steps next env w c hen hpath (w2, c2) stored hnext hstored
  constructor
  · refine ⟨_, stored, _, hrun, hres, ?_, hopen.1, hopen.2.2.1, ?_, hsev, hsreq, ?_,
      hend.2.2.1, ?_⟩
    · obtain ⟨r, hr, _⟩ := openRequest_spec env w c
      rw [hr]; simp
    · show some w.heap.length ∉ (DebugBar.broadcast _ _).store.requests
      rw [hopen.2.2.1]; exact hfresh
    · exact hend.1.trans (by rw [hsev])
    · intro hd
      have hd1 : w2.d = w.d.broadcast
          { Typ := MessageTypeRequest, Payload := .request (some w.heap.length) } := hd
      constructor
      · refine hend.1.trans ?_
        rw [hsev, hd1, hopen.1]; simp
      · refine (congrArg RequestStore.requests hend.2.2.1).trans ?_
        rw [hsreq, hd1, hopen.2.2.1]
  · intro c1 hc1
    simp [ginMiddleware, hc1]

theorem tracked_request_run_witness :
    (sampleWorld true).d.config.Enabled = true
      ∧ incomingContext.Request.Path ≠ (sampleWorld true).d.config.WebSocketPath
      ∧ (sampleWorld true).d.wsHub ≠ none
      ∧ StoreValid (sampleWorld true).heap (sampleWorld true).d.store
      ∧ ∃ s1 s3 s4, trackedRun (fun w c => pure (w, c)) sampleEnv (sampleWorld true)
            incomingContext
            = [s1, (openRequest sampleEnv (sampleWorld true) incomingContext).1, s3, s4]
          ∧ ginMiddleware (fun w c => pure (w, c)) sampleEnv (sampleWorld true) incomingContext
            = .ok (s4, (openRequest sampleEnv (sampleWorld true) incomingContext).2.1) :=
  ⟨by decide, by decide, by decide, by decide,
    (tracked_request_run (fun w c => pure (w, c)) sampleEnv (sampleWorld true) incomingContext
      (openRequest sampleEnv (sampleWorld true) incomingContext).1
      (openRequest sampleEnv (sampleWorld true) incomingContext).2.1
      (by decide) (by decide) (by decide) (by decide) rfl (by decide) (by decide) (by decide)
      (by decide)).1.imp
      (fun _ h => h.imp (fun _ h1 => h1.imp (fun _ h2 => ⟨h2.1, h2.2.1⟩)))⟩

theorem find_filter_other {V : Type} (m : GoMap V) (k k1 : String) (h : k1 ≠ k) :
    (m.filter (fun e => e.1 != k)).find? (fun e => e.1 == k1)
      = m.find? (fun e => e.1 == k1) := by
  induction m with
  | nil => rfl
  | cons e rest ih =>
    obtain ⟨ke, ve⟩ := e
    by_cases hk : ke = k
    · have hb1 : (ke != k) = false := by simp [hk]
      have hb2 : (ke == k1) = false := by
        rw [hk]; exact beq_false_of_ne (fun h3 => h h3.symm)
      simp only [List.filter_cons, hb1, List.find?_cons, hb2, Bool.false_eq_true, if_false]
      exact ih
    · have hb1 : (ke != k) = true := by simp [hk]
      simp only [List.filter_cons, hb1, if_true, List.find?_cons]
      cases hb2 : (ke == k1)
      · exact ih
      · rfl

/-- Map assignment sets the given key and leaves every other key as it was. -/
theorem GoMap_get_set {V : Type} (m : GoMap V) (k : String) (v : V) :
    GoMap.get (GoMap.set m k v) k = some v
      ∧ ∀ k1, k1 ≠ k → GoMap.get (GoMap.set m k v) k1 = GoMap.get m k1 := by
  constructor
  · simp [GoMap.get, GoMap.set]
  · intro k1 h
    have h2 : (k == k1) = false := beq_false_of_ne (fun h3 => h h3.symm)
    simp only [GoMap.get, GoMap.set, List.find?_cons, h2]
    rw [find_filter_other m k k1 h]

/-- Writing one record and keeping the store and the configuration changes
only that record. -/
theorem onlyRecordChanged_write (w : World) (a : Nat) (r r1 : RequestInfo) (d1 : DebugBar)
    (hr : w.heap.get? a = some r) (hs : d1.store = w.d.store) (hc : d1.config = w.d.config) :
    OnlyRecordChanged w { heap := store_record w.heap a r1, d := d1 } a r1 := by
  refine ⟨hs, hc, by simp [store_record], ?_, ?_⟩
  · intro b hb
    show (store_record w.heap a r1).get? b = _
    rw [get_store_record, if_neg (fun h => hb h.symm)]
  · show (store_record w.heap a r1).get? a = _
    rw [get_store_record, if_pos rfl, hr]; rfl

/-- C13: every attach operation changes only its own target field of the
bound record. `addQuery` appends one query to `Queries`; `AddError` and, when
tracking is enabled, `logError` append one error to `Errors` (with a nil
error they panic before any change, and a disabled `logError` changes
nothing); `AddCustomData` sets `CustomData` at the given key and keeps every
other key. In every case the record's ID and all its other fields, all other
records and the store are unchanged. -/
theorem attach_changes_only_target (w : World) (c : GinContext) (ctx : StdContext) (a : Nat)
    (r : RequestInfo) (query : QueryInfo) (message errType : String)
    (ectx : Option (GoMap AnyVal)) (id : String) (now : Int) (stack key : String)
    (value : AnyVal)
    (hr : w.heap.get? a = some r) (hc : GetRequestInfo c = some a)
    (hctx : GetRequestInfoFromContext ctx = some a) :
    (∃ w1, addQuery w ctx query = .ok w1
        ∧ OnlyRecordChanged w w1 a
            { r with Queries := r.Queries ++ [{ query with RequestID := r.ID }] })
      ∧ (∃ w1, AddError w c (some message) errType ectx id stack = .ok w1
        ∧ OnlyRecordChanged w w1 a
            { r with Errors := r.Errors ++
                [{ ID := id, RequestID := r.ID, Message := message, Stack := stack,
                   Typ := errType, Timestamp := 0, Context := ectx }] })
      ∧ AddError w c none errType ectx id stack = .error Fault.nilDeref
      ∧ (w.d.config.Enabled = true →
          (∃ w1, logError w c (some message) errType ectx id now stack = .ok w1
            ∧ OnlyRecordChanged w w1 a
                { r with Errors := r.Errors ++
                    [{ ID := id, RequestID := r.ID, Message := message, Stack := stack,
                       Typ := errType, Timestamp := now, Context := ectx }] })
          ∧ logError w c none errType ectx id now stack = .error Fault.nilDeref)
      ∧ (w.d.config.Enabled = false →
          ∀ err, logError w c err errType ectx id now stack = .ok w)
      ∧ (∃ w1 custom, AddCustomData w c key value = .ok w1
        ∧ OnlyRecordChanged w w1 a { r with CustomData := some custom }
        ∧ GoMap.get custom key = some value
        ∧ ∀ k1, k1 ≠ key → GoMap.get custom k1 = GoMap.get (r.CustomData.getD []) k1) := by
  have hd := deref_of_get w.heap a r hr
  refine ⟨?_, ?_, ?_, ?_, ?_, ?_⟩
  · simp only [addQuery, hctx, hd]
    exact ⟨_, rfl, onlyRecordChanged_write w a r _ _ hr (broadcast_store _ _).1
      (broadcast_store _ _).2⟩
  · simp only [AddError, hc, hd]
    exact ⟨_, rfl, onlyRecordChanged_write w a r _ _ hr (broadcast_store _ _).1
      (broadcast_store _ _).2⟩
  · simp only [AddError, hc, hd]
    rfl
  · intro hen
    constructor
    · simp only [logError, hen, hc, hd]
      exact ⟨_, rfl, onlyRecordChanged_write w a r _ _ hr (broadcast_store _ _).1
        (broadcast_store _ _).2⟩
    · simp only [logError, hen, hc, hd]
      rfl
  · intro hen err
    simp only [logError, hen]
    rfl
  · simp only [AddCustomData, hc, hd]
    refine ⟨_, GoMap.set (r.CustomData.getD []) key value, rfl, ?_,
      (GoMap_get_set _ key value).1, (GoMap_get_set _ key value).2⟩
    have := onlyRecordChanged_write w a r
      { r with CustomData := some (GoMap.set (r.CustomData.getD []) key value) } w.d hr rfl rfl
    cases hcd : r.CustomData <;> simp only [hcd, Option.getD] at this ⊢ <;> exact this

theorem attach_changes_only_target_witness :
    (sampleWorld true).heap.get? 0 = some (sampleRecord "r0")
      ∧ GetRequestInfo (sampleContext 0) = some 0
      ∧ GetRequestInfoFromContext (sampleRequest 0).ctx = some 0
      ∧ ∃ w1, addQuery (sampleWorld true) (sampleRequest 0).ctx (sampleQuery "q1") = .ok w1
          ∧ OnlyRecordChanged (sampleWorld true) w1 0
              { sampleRecord "r0" with Queries := [{ sampleQuery "q1" with RequestID := "r0" }] } :=
  ⟨rfl, by decide, by decide,
    (attach_changes_only_target (sampleWorld true) (sampleContext 0) (sampleRequest 0).ctx 0
      (sampleRecord "r0") (sampleQuery "q1") "boom" ErrorTypeException none "e1" 0 "stack"
      "user" (.int 7) rfl (by decide) (by decide)).1⟩

/-- C14: for every store state and every negative `n`, `GetRecent(n)`, and so
`GetRecentHistory(n)`, does not return an empty sequence but panics: `n` is
not clamped below, the allocation `make([]*RequestInfo, n)` is out of range,
and so is the slice expression from index `size - n`. The same holds over
backing arrays. -/
theorem GetRecent_negative_panics (s : RequestStore) (d : DebugBar) (n : Int) (hn : n < 0) :
    s.GetRecent n = .error Fault.makeslice
      ∧ d.GetRecentHistory n = .error Fault.makeslice
      ∧ s.GetRecent n ≠ .ok []
      ∧ (if n > (s.requests.length : Int) then (s.requests.length : Int) else n) = n
      ∧ goMake n = .error Fault.makeslice
      ∧ sliceFrom s.requests ((s.requests.length : Int) - n) = .error Fault.sliceBounds
      ∧ (∀ (m : Arrays) (ss : SliceStore), ss.GetRecent m n = .error Fault.makeslice) := by
  have hclamp : ∀ k : Nat, (if n > (k : Int) then (k : Int) else n) = n := by
    intro k; split <;> omega
  have hmake : goMake n = .error Fault.makeslice := by simp [goMake, hn]
  have hget : ∀ t : RequestStore, t.GetRecent n = .error Fault.makeslice := by
    intro t
    simp only [RequestStore.GetRecent, hclamp, hmake]
    rfl
  refine ⟨hget s, hget d.store, ?_, hclamp _, hmake, ?_, ?_⟩
  · rw [hget s]; intro h; cases h
  · have : (s.requests.length : Int) < (s.requests.length : Int) - n := by omega
    simp [sliceFrom, this]
  · intro m ss
    simp only [SliceStore.GetRecent, hclamp, makeSlice, hn, if_true]
    rfl

theorem GetRecent_negative_panics_witness :
    (-1 : Int) < 0
      ∧ (RequestStore.mk [some 0, some 1] 2).GetRecent (-1) = .error Fault.makeslice
      ∧ (sampleBar true).GetRecentHistory (-1) = .error Fault.makeslice :=
  ⟨by decide,
    (GetRecent_negative_panics (RequestStore.mk [some 0, some 1] 2) (sampleBar true) (-1)
      (by decide)).1,
    (GetRecent_negative_panics (RequestStore.mk [some 0, some 1] 2) (sampleBar true) (-1)
      (by decide)).2.1⟩

/-! ## Lemmas on handlers -/

theorem ptrAllocated_mono (heap heap1 : Heap) (h : heap.length ≤ heap1.length) (p : Ptr)
    (hp : ptrAllocated heap p = true) : ptrAllocated heap1 p = true := by
  cases p with
  | none => rfl
  | some a =>
    simp only [ptrAllocated, decide_eq_true_eq] at hp ⊢
    omega

theorem payloadAllocated_mono (heap heap1 : Heap) (h : heap.length ≤ heap1.length)
    (v : PayloadVal) (hv : payloadAllocated heap v = true) : payloadAllocated heap1 v = true := by
  cases v with
  | request p => exact ptrAllocated_mono heap heap1 h p hv
  | query q => rfl
  | error e => rfl

/-- A broadcast appends the message to the log of a hub that is there and
does nothing else. -/
theorem broadcast_shape (d : DebugBar) (msg : WebSocketMessage) :
    (d.broadcast msg).store = d.store ∧ (d.wsHub ≠ none → (d.broadcast msg).wsHub ≠ none)
      ∧ ∃ ms, (d.broadcast msg).events = d.events ++ ms ∧ ∀ m ∈ ms, m = msg := by
  cases hh : d.wsHub with
  | none =>
    refine ⟨by simp [DebugBar.broadcast, hh], fun h => absurd rfl h, [], ?_, by simp⟩
    simp [DebugBar.broadcast, DebugBar.events, hh]
  | some hub =>
    refine ⟨by simp [DebugBar.broadcast, hh], fun _ => by simp [DebugBar.broadcast, hh],
      [msg], ?_, by simp⟩
    simp [DebugBar.broadcast, DebugBar.events, WebSocketHub.Broadcast, hh]

theorem quiet_refl (w : World) : Quiet w w :=
  ⟨rfl, Or.inl rfl, Nat.le_refl _, fun h => h, [], by simp, by simp⟩

/-- Writing a record and broadcasting a message that carries no record pointer
is a quiet step. -/
theorem quiet_write (w : World) (a : Nat) (r1 : RequestInfo) (msg : WebSocketMessage)
    (hmsg : ∀ p, msg.Payload ≠ .request p) :
    Quiet w { heap := store_record w.heap a r1, d := w.d.broadcast msg } := by
  obtain ⟨hs, hh, ms, hev, hms⟩ := broadcast_shape w.d msg
  refine ⟨by show (w.d.broadcast msg).store.maxSize = _; rw [hs],
    Or.inl (by show (w.d.broadcast msg).store.requests = _; rw [hs]),
    by simp [store_record], hh, ms, hev, ?_⟩
  intro m hm p
  rw [hms m hm]
  exact hmsg p

theorem quiet_wf (w w1 : World) (hq : Quiet w w1) (hwf : w.WF) : w1.WF := by
  obtain ⟨hm, hreq, hheap, hhub, ms, hev, hms⟩ := hq
  obtain ⟨h1, h2, h3, h4, h5⟩ := hwf
  refine ⟨hhub h1, by rw [hm]; exact h2, ?_, ?_, ?_⟩
  · rcases hreq with h | h
    · rw [h, hm]; exact h3
    · rw [h, hm]; simp only [List.length_nil]; omega
  · rcases hreq with h | h
    · rw [h]; intro p hp; exact ptrAllocated_mono _ _ hheap p (h4 p hp)
    · rw [h]; intro p hp; cases hp
  · rw [hev]
    intro m hm1
    rcases List.mem_append.mp hm1 with h | h
    · exact payloadAllocated_mono _ _ hheap _ (h5 m h)
    · cases hpl : m.Payload with
      | request p => exact absurd hpl (hms m h p)
      | query q => rfl
      | error e => rfl

theorem quiet_keeps (w w1 : World) (hq : Quiet w w1) (a : Nat) : Keeps a w w1 := by
  obtain ⟨_, hreq, _, _, ms, hev, hms⟩ := hq
  constructor
  · rcases hreq with h | h
    · simp only [storeCount, h]; exact Nat.le_refl _
    · simp only [storeCount, h, List.count_nil]; exact Nat.zero_le _
  · intro typ
    simp only [eventCount, hev, List.count_append]
    have : ms.count { Typ := typ, Payload := .request (some a) } = 0 := by
      rw [List.count_eq_zero]
      intro hmem
      exact hms _ hmem (some a) rfl
    omega

theorem AddError_quiet (w w1 : World) (c : GinContext) (err : Option String)
    (errType : String) (ctx : Option (GoMap AnyVal)) (id stack : String)
    (h : AddError w c err errType ctx id stack = .ok w1) : Quiet w w1 := by
  cases hc : GetRequestInfo c with
  | none =>
    simp only [AddError, hc] at h
    replace h : (Except.ok w : Except Fault World) = .ok w1 := h
    cases h; exact quiet_refl w
  | some a =>
    cases hd : deref w.heap (some a) with
    | error e =>
      simp only [AddError, hc, hd] at h
      replace h : (Except.error e : Except Fault World) = .ok w1 := h
      cases h
    | ok r =>
      cases err with
      | none =>
        simp only [AddError, hc, hd] at h
        replace h : (Except.error Fault.nilDeref : Except Fault World) = .ok w1 := h
        cases h
      | some m =>
        simp only [AddError, hc, hd] at h
        replace h : (Except.ok _ : Except Fault World) = .ok w1 := h
        cases h
        exact quiet_write w a _ _ (fun p hp => by cases hp)

theorem logError_quiet (w w1 : World) (c : GinContext) (err : Option String)
    (errType : String) (ctx : Option (GoMap AnyVal)) (id : String) (now : Int) (stack : String)
    (h : logError w c err errType ctx id now stack = .ok w1) : Quiet w w1 := by
  cases hen : w.d.config.Enabled with
  | false =>
    simp only [logError, hen] at h
    replace h : (Except.ok w : Except Fault World) = .ok w1 := h
    cases h; exact quiet_refl w
  | true =>
    cases hc : GetRequestInfo c with
    | none =>
      simp only [logError, hen, hc] at h
      replace h : (Except.ok w : Except Fault World) = .ok w1 := h
      cases h; exact quiet_refl w
    | some a =>
      cases hd : deref w.heap (some a) with
      | error e =>
        simp only [logError, hen, hc, hd] at h
        replace h : (Except.error e : Except Fault World) = .ok w1 := h
        cases h
      | ok r =>
        cases err with
        | none =>
          simp only [logError, hen, hc, hd] at h
          replace h : (Except.error Fault.nilDeref : Except Fault World) = .ok w1 := h
          cases h
        | some m =>
          simp only [logError, hen, hc, hd] at h
          replace h : (Except.ok _ : Except Fault World) = .ok w1 := h
          cases h
          exact quiet_write w a _ _ (fun p hp => by cases hp)

theorem AddCustomData_quiet (w w1 : World) (c : GinContext) (key : String) (value : AnyVal)
    (h : AddCustomData w c key value = .ok w1) : Quiet w w1 := by
  cases hc : GetRequestInfo c with
  | none =>
    simp only [AddCustomData, hc] at h
    replace h : (Except.ok w : Except Fault World) = .ok w1 := h
    cases h; exact quiet_refl w
  | some a =>
    cases hd : deref w.heap (some a) with
    | error e =>
      simp only [AddCustomData, hc, hd] at h
      replace h : (Except.error e : Except Fault World) = .ok w1 := h
      cases h
    | ok r =>
      simp only [AddCustomData, hc, hd] at h
      replace h : (Except.ok _ : Except Fault World) = .ok w1 := h
      cases h
      exact ⟨rfl, Or.inl rfl, by simp [store_record], fun h => h, [], by simp, by simp⟩

theorem addQuery_quiet (w w1 : World) (ctx : StdContext) (query : QueryInfo)
    (h : addQuery w ctx query = .ok w1) : Quiet w w1 := by
  cases hc : GetRequestInfoFromContext ctx with
  | none =>
    simp only [addQuery, hc] at h
    replace h : (Except.ok w : Except Fault World) = .ok w1 := h
    cases h; exact quiet_refl w
  | some a =>
    cases hd : deref w.heap (some a) with
    | error e =>
      simp only [addQuery, hc, hd] at h
      replace h : (Except.error e : Except Fault World) = .ok w1 := h
      cases h
    | ok r =>
      simp only [addQuery, hc, hd] at h
      replace h : (Except.ok _ : Except Fault World) = .ok w1 := h
      cases h
      exact quiet_write w a _ _ (fun p hp => by cases hp)

theorem afterCallback_quiet (w w1 : World) (db : GormDB) (now : Int) (source : String)
    (h : afterCallback w db now source = .ok w1) : Quiet w w1 := by
  unfold afterCallback at h
  split at h
  · cases h; exact quiet_refl w
  · split at h
    · split at h
      · exact addQuery_quiet w w1 _ _ h
      · cases h; exact quiet_refl w
    · cases h; exact quiet_refl w

/-- Every step of a handler is quiet. -/
theorem op_quiet (o : HandlerOp) (w w1 : World) (c c1 : GinContext)
    (h : o.run w c = .ok (w1, c1)) : Quiet w w1 := by
  cases o with
  | addError err errType ctx id stack =>
    simp only [HandlerOp.run] at h
    cases hr : AddError w c err errType ctx id stack with
    | error e => rw [hr] at h; cases h
    | ok w2 => rw [hr] at h; cases h; exact AddError_quiet w w1 c _ _ _ _ _ hr
  | addCustomData key value =>
    simp only [HandlerOp.run] at h
    cases hr : AddCustomData w c key value with
    | error e => rw [hr] at h; cases h
    | ok w2 => rw [hr] at h; cases h; exact AddCustomData_quiet w w1 c _ _ hr
  | logError err errType ctx id now stack =>
    simp only [HandlerOp.run] at h
    cases hr : logError w c err errType ctx id now stack with
    | error e => rw [hr] at h; cases h
    | ok w2 => rw [hr] at h; cases h; exact logError_quiet w w1 c _ _ _ _ _ _ hr
  | afterCallback db now source =>
    simp only [HandlerOp.run] at h
    cases hr : afterCallback w db now source with
    | error e => rw [hr] at h; cases h
    | ok w2 => rw [hr] at h; cases h; exact afterCallback_quiet w w1 _ _ _ hr
  | setEnabled enabled =>
    simp only [HandlerOp.run] at h
    cases h
    exact ⟨rfl, Or.inl rfl, Nat.le_refl _, fun h => h, [], by simp [DebugBar.events, DebugBar.SetEnabled], by simp⟩
  | clearHistory =>
    simp only [HandlerOp.run, DebugBar.ClearHistory, RequestStore.Clear, goMakeCap] at h
    split at h
    · cases h
    · cases h
      exact ⟨rfl, Or.inr rfl, Nat.le_refl _, fun h => h, [], by simp [DebugBar.events], by simp⟩
  | getRecentHistory n =>
    simp only [HandlerOp.run] at h
    cases hr : w.d.GetRecentHistory n with
    | error e => rw [hr] at h; cases h
    | ok l => rw [hr] at h; cases h; exact quiet_refl w
  | assign a r =>
    simp only [HandlerOp.run] at h
    cases h
    exact ⟨rfl, Or.inl rfl, by simp [store_record], fun h => h, [], by simp, by simp⟩
  | newRecord r =>
    simp only [HandlerOp.run] at h
    cases h
    exact ⟨rfl, Or.inl rfl, by simp, fun h => h, [], by simp, by simp⟩
  | setContext c2 =>
    simp only [HandlerOp.run] at h
    cases h
    exact quiet_refl w

theorem keeps_refl (a : Nat) (w : World) : Keeps a w w :=
  ⟨Nat.le_refl _, fun _ => rfl⟩

theorem keeps_trans (a : Nat) (w s1 s2 : World) (h1 : Keeps a w s1) (h2 : Keeps a s1 s2) :
    Keeps a w s2 :=
  ⟨Nat.le_trans h2.1 h1.1, fun typ => (h2.2 typ).trans (h1.2 typ)⟩

theorem runKeepsBelow_weaken (n m : Nat) (hnm : n ≤ m) (w : World) (r : Run)
    (h : RunKeepsBelow m w r) : RunKeepsBelow n w r :=
  ⟨h.1, h.2.1, fun a ha => h.2.2 a (Nat.lt_of_lt_of_le ha hnm)⟩

theorem runKeepsBelow_stay (n : Nat) (w : World) (hwf : w.WF) (c : GinContext)
    (f : Option Fault) :
    RunKeepsBelow n w { visited := [], inserted := [], world := w, ctx := c, fault := f } :=
  ⟨hwf, Nat.le_refl _, fun a _ => ⟨by simp, keeps_refl a w, by simp⟩⟩

/-- Two runs one after the other. -/
theorem runKeepsBelow_append (n : Nat) (w : World) (r1 r2 : Run) (c : GinContext)
    (f : Option Fault) (h1 : RunKeepsBelow n w r1) (h2 : RunKeepsBelow n r1.world r2) :
    RunKeepsBelow n w
      { visited := r1.visited ++ r2.visited, inserted := r1.inserted ++ r2.inserted,
        world := r2.world, ctx := c, fault := f } := by
  refine ⟨h2.1, Nat.le_trans h1.2.1 h2.2.1, ?_⟩
  intro a ha
  obtain ⟨hv1, hw1, hi1⟩ := h1.2.2 a ha
  obtain ⟨hv2, hw2, hi2⟩ := h2.2.2 a ha
  refine ⟨?_, keeps_trans a w _ _ hw1 hw2, ?_⟩
  · intro s hs
    rcases List.mem_append.mp hs with h | h
    · exact hv1 s h
    · exact keeps_trans a w _ _ hw1 (hv2 s h)
  · intro hmem
    rcases List.mem_append.mp hmem with h | h
    · exact hi1 h
    · exact hi2 h

/-- One quiet step followed by a run. -/
theorem runKeepsBelow_step (n : Nat) (w w1 : World) (r : Run) (hwf : w.WF)
    (hq : Quiet w w1) (h : RunKeepsBelow n w1 r) :
    RunKeepsBelow n w
      { visited := w1 :: r.visited, inserted := r.inserted, world := r.world, ctx := r.ctx,
        fault := r.fault } := by
  have h1 : RunKeepsBelow n w
      { visited := [w1], inserted := [], world := w1, ctx := r.ctx, fault := none } :=
    ⟨quiet_wf w w1 hq hwf, hq.2.2.1, fun a _ =>
      ⟨by intro s hs; rw [List.mem_singleton.mp hs]; exact quiet_keeps w w1 hq a,
       quiet_keeps w w1 hq a, by simp⟩⟩
  exact runKeepsBelow_append n w _ r r.ctx r.fault h1 h

theorem eventCount_broadcast (d : DebugBar) (heap : Heap) (msg : WebSocketMessage)
    (hhub : d.wsHub ≠ none) (typ : String) (b : Nat) :
    eventCount typ b { heap := heap, d := d.broadcast msg }
      = d.events.count { Typ := typ, Payload := .request (some b) }
        + (if msg = { Typ := typ, Payload := .request (some b) } then 1 else 0) := by
  have h := (events_broadcast d msg hhub).1
  simp only [eventCount, h, List.count_append, List.count_cons, List.count_nil, beq_iff_eq]
  omega

/-- The last `cap ≥ 1` elements of `l ++ [x]`: a suffix of `l` followed by `x`. -/
theorem last_append_one (l : List Ptr) (x : Ptr) (cap : Nat) (hcap : 1 ≤ cap) :
    (l ++ [x]).drop ((l ++ [x]).length - cap) = l.drop (l.length + 1 - cap) ++ [x] := by
  have h1 : (l ++ [x]).length - cap = l.length + 1 - cap := by simp
  rw [h1, List.drop_append_of_le_length (by omega)]

theorem count_drop_le (l : List Ptr) (k : Nat) (x : Ptr) : (l.drop k).count x ≤ l.count x :=
  (List.drop_sublist k l).count_le x

/-- What `finalizeStored` does on a well-formed state. -/
theorem finalizeStored_facts (env : Env) (w : World) (c : GinContext) (a : Nat)
    (startTime written0 : Int) (hwf : w.WF) (ha : a < w.heap.length) :
    ∃ stored, finalizeStored env w c (some a) startTime written0 = .ok stored
      ∧ stored.WF ∧ stored.heap.length = w.heap.length
      ∧ stored.d.events = w.d.events
      ∧ stored.d.store.requests
          = w.d.store.requests.drop (w.d.store.requests.length + 1 - w.d.store.maxSize.toNat)
              ++ [some a] := by
  obtain ⟨hhub, hcap, hb, hptr, hev⟩ := hwf
  obtain ⟨r, hr⟩ := get_of_lt w.heap a ha
  obtain ⟨s1, hs1, hm1, hr1⟩ := Add_spec w.d.store (some a) hcap hb
  have hd := deref_of_get w.heap a r hr
  rw [last_append_one _ _ _ (by omega)] at hr1
  simp only [finalizeStored, hd, DebugBar.storeRequest, hs1]
  refine ⟨_, rfl, ⟨hhub, by show 1 ≤ s1.maxSize; rw [hm1]; exact hcap, ?_, ?_, ?_⟩,
    by simp [store_record], rfl, hr1⟩
  · show (s1.requests.length : Int) ≤ s1.maxSize
    rw [hr1, hm1]
    simp only [List.length_append, List.length_drop, List.length_singleton]
    omega
  · show ∀ p ∈ s1.requests, ptrAllocated (store_record w.heap a _) p = true
    intro p hp
    rw [hr1] at hp
    have hlen : w.heap.length ≤ (store_record w.heap a
        { r with EndTime := env.endTime, Duration := env.endTime - startTime,
                 DurationMs := env.endTime - startTime, StatusCode := c.Writer.status,
                 ResponseSize := c.Writer.written - written0,
                 MemoryUsage := env.memAlloc }).length := by simp [store_record]
    rcases List.mem_append.mp hp with h | h
    · exact ptrAllocated_mono _ _ hlen p (hptr p (List.mem_of_mem_drop h))
    · rw [List.mem_singleton.mp h]
      simp only [ptrAllocated, decide_eq_true_eq, store_record, List.length_set]
      exact ha
  · intro m hm
    exact payloadAllocated_mono w.heap _ (by simp [store_record]) _ (hev m hm)

/-- The state in which the handler starts: one more record, the same store,
one more message, `request`, about the new record. -/
theorem openRequest_facts (env : Env) (w : World) (c : GinContext) (hwf : w.WF) :
    (openRequest env w c).1.WF
      ∧ (openRequest env w c).1.heap.length = w.heap.length + 1
      ∧ (openRequest env w c).2.2 = w.heap.length
      ∧ (openRequest env w c).1.d.store = w.d.store
      ∧ (∀ typ b, eventCount typ b (openRequest env w c).1
          = eventCount typ b w
            + (if typ = MessageTypeRequest ∧ b = w.heap.length then 1 else 0)) := by
  obtain ⟨hhub, hcap, hb, hptr, hev⟩ := hwf
  obtain ⟨r, hheap, _⟩ := openRequest_spec env w c
  have hd : (openRequest env w c).1.d = w.d.broadcast
      { Typ := MessageTypeRequest, Payload := .request (some w.heap.length) } := rfl
  have hbc := events_broadcast w.d
    { Typ := MessageTypeRequest, Payload := .request (some w.heap.length) } hhub
  have hlen : (openRequest env w c).1.heap.length = w.heap.length + 1 := by
    rw [hheap]; simp
  refine ⟨⟨?_, ?_, ?_, ?_, ?_⟩, hlen, rfl, by rw [hd]; exact hbc.2.2.1, ?_⟩
  · rw [hd]; exact hbc.2.1
  · rw [hd, hbc.2.2.1]; exact hcap
  · rw [hd, hbc.2.2.1]; exact hb
  · rw [hd, hbc.2.2.1]
    intro p hp
    exact ptrAllocated_mono w.heap _ (by omega) p (hptr p hp)
  · rw [hd, hbc.1]
    intro m hm
    rcases List.mem_append.mp hm with h | h
    · exact payloadAllocated_mono w.heap _ (by omega) _ (hev m h)
    · rw [List.mem_singleton.mp h]
      simp only [payloadAllocated, ptrAllocated, decide_eq_true_eq]
      omega
  · intro typ b
    have := eventCount_broadcast w.d (openRequest env w c).1.heap
      { Typ := MessageTypeRequest, Payload := .request (some w.heap.length) } hhub typ b
    have hsame : eventCount typ b (openRequest env w c).1
        = eventCount typ b { heap := (openRequest env w c).1.heap
                             d := w.d.broadcast { Typ := MessageTypeRequest
                                                  Payload := .request (some w.heap.length) } } := rfl
    rw [hsame, this]
    simp only [eventCount, WebSocketMessage.mk.injEq, PayloadVal.request.injEq, Option.some.injEq]
    by_cases h1 : typ = MessageTypeRequest ∧ b = w.heap.length
    · rw [if_pos ⟨h1.1.symm, h1.2.symm⟩, if_pos h1]
    · rw [if_neg (fun h => h1 ⟨h.1.symm, h.2.symm⟩), if_neg h1]

/-- In a well-formed state no message is about a record that is not allocated
yet, and no such record is in the store. -/
theorem fresh_counts (w : World) (hwf : w.WF) (a : Nat) (ha : w.heap.length ≤ a) :
    storeCount a w = 0 ∧ ∀ typ, eventCount typ a w = 0 := by
  obtain ⟨_, _, _, hptr, hev⟩ := hwf
  constructor
  · simp only [storeCount, List.count_eq_zero]
    intro hmem
    have := hptr _ hmem
    simp only [ptrAllocated, decide_eq_true_eq] at this
    omega
  · intro typ
    simp only [eventCount, List.count_eq_zero]
    intro hmem
    have := hev _ hmem
    simp only [payloadAllocated, ptrAllocated, decide_eq_true_eq] at this
    omega

theorem middlewareRun_skip (next : World → GinContext → Run) (env : Env) (w : World)
    (c : GinContext)
    (h : w.d.config.Enabled = false ∨ c.Request.Path = w.d.config.WebSocketPath) :
    middlewareRun next env w c = next w c := by
  rcases h with h | h
  · simp [middlewareRun, h]
  · simp [middlewareRun, h]

theorem middlewareRun_panic (next : World → GinContext → Run) (env : Env) (w : World)
    (c : GinContext) (hen : w.d.config.Enabled = true)
    (hpath : c.Request.Path ≠ w.d.config.WebSocketPath) (f : Fault)
    (hf : (next (openRequest env w c).1 (openRequest env w c).2.1).fault = some f) :
    middlewareRun next env w c
      = { visited := (openRequest env w c).1
            :: (next (openRequest env w c).1 (openRequest env w c).2.1).visited
          inserted := (next (openRequest env w c).1 (openRequest env w c).2.1).inserted
          world := (next (openRequest env w c).1 (openRequest env w c).2.1).world
          ctx := (next (openRequest env w c).1 (openRequest env w c).2.1).ctx
          fault := some f } := by
  simp only [middlewareRun, hen, hpath, hf]
  rfl

theorem middlewareRun_return (next : World → GinContext → Run) (env : Env) (w : World)
    (c : GinContext) (hen : w.d.config.Enabled = true)
    (hpath : c.Request.Path ≠ w.d.config.WebSocketPath)
    (hf : (next (openRequest env w c).1 (openRequest env w c).2.1).fault = none)
    (stored : World)
    (hs : finalizeStored env (next (openRequest env w c).1 (openRequest env w c).2.1).world
      (next (openRequest env w c).1 (openRequest env w c).2.1).ctx
      (some (openRequest env w c).2.2) env.startTime c.Writer.written = .ok stored) :
    middlewareRun next env w c
      = { visited := (openRequest env w c).1
            :: (next (openRequest env w c).1 (openRequest env w c).2.1).visited
            ++ [stored,
                { heap := stored.heap
                  d := stored.d.broadcast
                    { Typ := MessageTypeRequestEnd
                      Payload := .request (some (openRequest env w c).2.2) } }]
          inserted := (next (openRequest env w c).1 (openRequest env w c).2.1).inserted
            ++ [some (openRequest env w c).2.2]
          world := { heap := stored.heap
                     d := stored.d.broadcast
                       { Typ := MessageTypeRequestEnd
                         Payload := .request (some (openRequest env w c).2.2) } }
          ctx := (next (openRequest env w c).1 (openRequest env w c).2.1).ctx
          fault := none } := by
  simp only [middlewareRun, hen, hpath, hf, hs]
  rfl

/-- The `request_end` broadcast on a well-formed state. -/
theorem broadcast_end_facts (stored : World) (n : Nat) (hwf : stored.WF)
    (hn : n < stored.heap.length) :
    World.WF { heap := stored.heap
               d := stored.d.broadcast
                 { Typ := MessageTypeRequestEnd, Payload := .request (some n) } }
      ∧ (stored.d.broadcast
          { Typ := MessageTypeRequestEnd, Payload := .request (some n) }).store = stored.d.store
      ∧ ∀ typ b, eventCount typ b
            { heap := stored.heap
              d := stored.d.broadcast
                { Typ := MessageTypeRequestEnd, Payload := .request (some n) } }
          = eventCount typ b stored
            + (if typ = MessageTypeRequestEnd ∧ b = n then 1 else 0) := by
  obtain ⟨hhub, hcap, hb, hptr, hev⟩ := hwf
  have hbc := events_broadcast stored.d
    { Typ := MessageTypeRequestEnd, Payload := .request (some n) } hhub
  refine ⟨⟨hbc.2.1, ?_, ?_, ?_, ?_⟩, hbc.2.2.1, ?_⟩
  · show 1 ≤ (DebugBar.broadcast _ _).store.maxSize
    rw [hbc.2.2.1]; exact hcap
  · show ((DebugBar.broadcast _ _).store.requests.length : Int) ≤ _
    rw [hbc.2.2.1]; exact hb
  · show ∀ p ∈ (DebugBar.broadcast _ _).store.requests, _
    rw [hbc.2.2.1]; exact hptr
  · show ∀ m ∈ (DebugBar.broadcast _ _).events, _
    rw [hbc.1]
    intro m hm
    rcases List.mem_append.mp hm with h | h
    · exact hev m h
    · rw [List.mem_singleton.mp h]
      simp only [payloadAllocated, ptrAllocated, decide_eq_true_eq]
      exact hn
  · intro typ b
    rw [eventCount_broadcast stored.d stored.heap _ hhub typ b]
    simp only [eventCount, WebSocketMessage.mk.injEq, PayloadVal.request.injEq,
      Option.some.injEq]
    by_cases h1 : typ = MessageTypeRequestEnd ∧ b = n
    · rw [if_pos ⟨h1.1.symm, h1.2.symm⟩, if_pos h1]
    · rw [if_neg (fun h => h1 ⟨h.1.symm, h.2.symm⟩), if_neg h1]

/-- The counts of a record in the store after `finalizeStored` of the record
at `a`. -/
theorem storeCount_stored (w stored : World) (a b : Nat)
    (hreq : stored.d.store.requests
      = w.d.store.requests.drop (w.d.store.requests.length + 1 - w.d.store.maxSize.toNat)
          ++ [some a]) :
    storeCount b stored ≤ storeCount b w + (if b = a then 1 else 0)
      ∧ (storeCount a w = 0 → storeCount a stored = 1) := by
  have hle := count_drop_le w.d.store.requests
    (w.d.store.requests.length + 1 - w.d.store.maxSize.toNat)
  constructor
  · simp only [storeCount, hreq, List.count_append, List.count_cons, List.count_nil,
      beq_iff_eq, Option.some.injEq]
    have := hle (some b)
    by_cases h : a = b
    · rw [if_pos h, if_pos h.symm]; omega
    · rw [if_neg h, if_neg (fun h1 => h h1.symm)]; omega
  · intro h0
    simp only [storeCount] at h0
    simp only [storeCount, hreq, List.count_append, List.count_cons, List.count_nil,
      beq_iff_eq, if_true]
    have := hle (some a)
    omega

theorem request_ne_request_end : MessageTypeRequestEnd ≠ MessageTypeRequest := by decide

/-- A tracked run of the middleware around a handler that keeps the records
allocated before it: what the run does with the record it creates, at address
`w.heap.length`, and that the whole run keeps the records allocated in `w`. -/
theorem tracked_run_spec (next : World → GinContext → Run) (env : Env) (w : World)
    (c : GinContext) (hwf : w.WF) (hen : w.d.config.Enabled = true)
    (hpath : c.Request.Path ≠ w.d.config.WebSocketPath)
    (hnext : RunKeeps (openRequest env w c).1 (handlerPart next env w c)) :
    RunKeepsBelow w.heap.length w (middlewareRun next env w c)
      ∧ (storeCount w.heap.length (openRequest env w c).1 = 0
          ∧ eventCount MessageTypeRequest w.heap.length (openRequest env w c).1 = 1
          ∧ eventCount MessageTypeRequestEnd w.heap.length (openRequest env w c).1 = 0)
      ∧ (∀ s, s ∈ (handlerPart next env w c).visited ∨ s = (handlerPart next env w c).world →
          storeCount w.heap.length s = 0
            ∧ eventCount MessageTypeRequest w.heap.length s = 1
            ∧ eventCount MessageTypeRequestEnd w.heap.length s = 0)
      ∧ some w.heap.length ∉ (handlerPart next env w c).inserted
      ∧ (∀ f, (handlerPart next env w c).fault = some f →
          middlewareRun next env w c
            = { visited := (openRequest env w c).1 :: (handlerPart next env w c).visited
                inserted := (handlerPart next env w c).inserted
                world := (handlerPart next env w c).world
                ctx := (handlerPart next env w c).ctx
                fault := some f })
      ∧ ((handlerPart next env w c).fault = none →
          ∃ stored final, middlewareRun next env w c
            = { visited := (openRequest env w c).1 :: (handlerPart next env w c).visited
                  ++ [stored, final]
                inserted := (handlerPart next env w c).inserted ++ [some w.heap.length]
                world := final
                ctx := (handlerPart next env w c).ctx
                fault := none }
            ∧ storeCount w.heap.length stored = 1
            ∧ eventCount MessageTypeRequest w.heap.length stored = 1
            ∧ eventCount MessageTypeRequestEnd w.heap.length stored = 0
            ∧ storeCount w.heap.length final = 1
            ∧ eventCount MessageTypeRequest w.heap.length final = 1
            ∧ eventCount MessageTypeRequestEnd w.heap.length final = 1) := by
  obtain ⟨hoWF, hoLen, hoN, hoStore, hoEv⟩ := openRequest_facts env w c hwf
  obtain ⟨hfs, hfe⟩ := fresh_counts w hwf w.heap.length (Nat.le_refl _)
  -- the state in which the handler starts
  have hos : storeCount w.heap.length (openRequest env w c).1 = 0 := by
    simp only [storeCount, hoStore]; exact hfs
  have hor : eventCount MessageTypeRequest w.heap.length (openRequest env w c).1 = 1 := by
    rw [hoEv, hfe, if_pos ⟨rfl, rfl⟩]
  have hoe : eventCount MessageTypeRequestEnd w.heap.length (openRequest env w c).1 = 0 := by
    rw [hoEv, hfe, if_neg (fun h => request_ne_request_end h.1)]
  -- the handler
  obtain ⟨hHwf, hHlen, hHk⟩ := hnext
  obtain ⟨hHv, hHw, hHi⟩ := hHk w.heap.length (by rw [hoLen]; exact Nat.lt_succ_self _)
  have hduring : ∀ s, s ∈ (handlerPart next env w c).visited
      ∨ s = (handlerPart next env w c).world →
      storeCount w.heap.length s = 0
        ∧ eventCount MessageTypeRequest w.heap.length s = 1
        ∧ eventCount MessageTypeRequestEnd w.heap.length s = 0 := by
    intro s hs
    have hk : Keeps w.heap.length (openRequest env w c).1 s := by
      rcases hs with h | h
      · exact hHv s h
      · rw [h]; exact hHw
    refine ⟨?_, by rw [hk.2, hor], by rw [hk.2, hoe]⟩
    have := hk.1
    omega
  -- the first step keeps the older records
  have hRA : RunKeepsBelow w.heap.length w
      { visited := [(openRequest env w c).1], inserted := [], world := (openRequest env w c).1,
        ctx := c, fault := none } := by
    refine ⟨hoWF, by show _ ≤ (openRequest env w c).1.heap.length; omega, fun a ha => ?_⟩
    have hk : Keeps a w (openRequest env w c).1 := by
      refine ⟨by simp only [storeCount, hoStore]; exact Nat.le_refl _, fun typ => ?_⟩
      rw [hoEv, if_neg (fun h => by omega)]; rfl
    exact ⟨by intro s hs; rw [List.mem_singleton.mp hs]; exact hk, hk, by simp⟩
  have hH : RunKeepsBelow w.heap.length (openRequest env w c).1 (handlerPart next env w c) :=
    runKeepsBelow_weaken _ _ (by omega) _ _ ⟨hHwf, hHlen, hHk⟩
  have hpanic : ∀ f, (handlerPart next env w c).fault = some f →
      middlewareRun next env w c
        = { visited := (openRequest env w c).1 :: (handlerPart next env w c).visited
            inserted := (handlerPart next env w c).inserted
            world := (handlerPart next env w c).world
            ctx := (handlerPart next env w c).ctx
            fault := some f } :=
    fun f hf => middlewareRun_panic next env w c hen hpath f hf
  -- the finalization
  have hn : w.heap.length < (handlerPart next env w c).world.heap.length := by omega
  obtain ⟨stored, hstored, hsWF, hsLen, hsEv, hsReq⟩ :=
    finalizeStored_facts env (handlerPart next env w c).world (handlerPart next env w c).ctx
      w.heap.length env.startTime c.Writer.written hHwf hn
  obtain ⟨hfWF, hfStore, hfEv⟩ := broadcast_end_facts stored w.heap.length hsWF (by omega)
  have hreturn : (handlerPart next env w c).fault = none →
      middlewareRun next env w c
        = { visited := (openRequest env w c).1 :: (handlerPart next env w c).visited
              ++ [stored,
                  { heap := stored.heap
                    d := stored.d.broadcast
                      { Typ := MessageTypeRequestEnd
                        Payload := .request (some w.heap.length) } }]
            inserted := (handlerPart next env w c).inserted ++ [some w.heap.length]
            world := { heap := stored.heap
                       d := stored.d.broadcast
                         { Typ := MessageTypeRequestEnd
                           Payload := .request (some w.heap.length) } }
            ctx := (handlerPart next env w c).ctx
            fault := none } :=
    fun hf => middlewareRun_return next env w c hen hpath hf stored hstored
  obtain ⟨hds, hdr, hde⟩ := hduring _ (Or.inr rfl)
  have hss : storeCount w.heap.length stored = 1 :=
    (storeCount_stored _ stored w.heap.length w.heap.length hsReq).2 hds
  have hsr : eventCount MessageTypeRequest w.heap.length stored = 1 := by
    simp only [eventCount, hsEv]; exact hdr
  have hse : eventCount MessageTypeRequestEnd w.heap.length stored = 0 := by
    simp only [eventCount, hsEv]; exact hde
  refine ⟨?_, ⟨hos, hor, hoe⟩, hduring, hHi, hpanic, ?_⟩
  · cases hf : (handlerPart next env w c).fault with
    | some f =>
      rw [hpanic f hf]
      exact runKeepsBelow_append _ w _ _ _ _ hRA hH
    | none =>
      rw [hreturn hf]
      have hRC : RunKeepsBelow w.heap.length (handlerPart next env w c).world
          { visited := [stored,
                { heap := stored.heap
                  d := stored.d.broadcast
                    { Typ := MessageTypeRequestEnd
                      Payload := .request (some w.heap.length) } }]
            inserted := [some w.heap.length]
            world := { heap := stored.heap
                       d := stored.d.broadcast
                         { Typ := MessageTypeRequestEnd
                           Payload := .request (some w.heap.length) } }
            ctx := (handlerPart next env w c).ctx
            fault := none } := by
        refine ⟨hfWF, by show _ ≤ stored.heap.length; omega, fun a ha => ?_⟩
        have hk1 : Keeps a (handlerPart next env w c).world stored := by
          refine ⟨?_, fun typ => by simp only [eventCount, hsEv]⟩
          have := (storeCount_stored _ stored w.heap.length a hsReq).1
          rw [if_neg (by omega)] at this
          exact this
        have hk2 : Keeps a stored
            { heap := stored.heap
              d := stored.d.broadcast
                { Typ := MessageTypeRequestEnd
                  Payload := .request (some w.heap.length) } } := by
          refine ⟨by simp only [storeCount, hfStore]; exact Nat.le_refl _, fun typ => ?_⟩
          rw [hfEv, if_neg (fun h => by omega)]; rfl
        have hk3 := keeps_trans a _ _ _ hk1 hk2
        refine ⟨?_, hk3, by simp; omega⟩
        intro s hs
        simp only [List.mem_cons, List.mem_singleton, List.not_mem_nil, or_false] at hs
        rcases hs with h | h
        · rw [h]; exact hk1
        · rw [h]; exact hk3
      exact runKeepsBelow_append _ w _ _ _ _ (runKeepsBelow_append _ w _ _ c none hRA hH) hRC
  · intro hf
    refine ⟨stored, _, hreturn hf, hss, hsr, hse, ?_, ?_, ?_⟩
    · simp only [storeCount, hfStore]; exact hss
    · rw [hfEv, hsr, if_neg (fun h => request_ne_request_end h.1.symm)]
    · rw [hfEv, hse, if_pos ⟨rfl, rfl⟩]

/-- A run of the middleware keeps the records allocated before it when the
handler does. -/
theorem middleware_keeps (next : World → GinContext → Run)
    (hnext : ∀ w c, w.WF → RunKeeps w (next w c)) (env : Env) (w : World) (c : GinContext)
    (hwf : w.WF) : RunKeeps w (middlewareRun next env w c) := by
  cases hen : w.d.config.Enabled with
  | false =>
    rw [middlewareRun_skip next env w c (Or.inl hen)]
    exact hnext w c hwf
  | true =>
    by_cases hpath : c.Request.Path = w.d.config.WebSocketPath
    · rw [middlewareRun_skip next env w c (Or.inr hpath)]
      exact hnext w c hwf
    · exact (tracked_run_spec next env w c hwf hen hpath
        (hnext _ _ (openRequest_facts env w c hwf).1)).1

/-- Every handler keeps the records allocated before it: whatever it does, it
never stores one of them and never broadcasts a `request` or `request_end`
message about one of them, and it leaves a well-formed state. -/
theorem handler_keeps (h : Handler) : ∀ (w : World) (c : GinContext), w.WF →
    RunKeeps w (h.run w c) := by
  induction h with
  | done => intro w c hwf; exact runKeepsBelow_stay _ w hwf c none
  | panic f => intro w c hwf; exact runKeepsBelow_stay _ w hwf c (some f)
  | op o rest ih =>
    intro w c hwf
    cases hr : o.run w c with
    | error f =>
      simp only [Handler.run, hr]
      exact runKeepsBelow_stay _ w hwf c (some f)
    | ok next =>
      obtain ⟨w1, c1⟩ := next
      simp only [Handler.run, hr]
      have hq := op_quiet o w w1 c c1 hr
      have h1 := ih w1 c1 (quiet_wf w w1 hq hwf)
      exact runKeepsBelow_step _ w w1 _ hwf hq
        (runKeepsBelow_weaken _ _ hq.2.2.1 _ _ h1)
  | nested env body rest ihb ihr =>
    intro w c hwf
    have hm := middleware_keeps (fun w1 c1 => body.run w1 c1) ihb env w c hwf
    cases hf : (middlewareRun (fun w1 c1 => body.run w1 c1) env w c).fault with
    | some f =>
      simp only [Handler.run, hf]
      exact hm
    | none =>
      simp only [Handler.run, hf]
      have h2 := ihr _ (middlewareRun (fun w1 c1 => body.run w1 c1) env w c).ctx hm.1
      exact runKeepsBelow_append _ w _ _ _ _ hm (runKeepsBelow_weaken _ _ hm.2.1 _ _ h2)
  | recover body rest ihb ihr =>
    intro w c hwf
    have hb := ihb w c hwf
    have h2 := ihr _ (body.run w c).ctx hb.1
    simp only [Handler.run]
    exact runKeepsBelow_append _ w _ _ _ _ hb (runKeepsBelow_weaken _ _ hb.2.1 _ _ h2)

/-- The run of the middleware with its states agrees with `ginMiddleware`:
the same result, or the same panic. -/
theorem middlewareRun_agrees (next : World → GinContext → Run) (env : Env) (w : World)
    (c : GinContext) :
    (middlewareRun next env w c).toExcept
      = ginMiddleware (fun w1 c1 => (next w1 c1).toExcept) env w c := by
  cases hen : w.d.config.Enabled with
  | false =>
    rw [middlewareRun_skip next env w c (Or.inl hen)]
    simp [ginMiddleware, hen]
  | true =>
    by_cases hpath : c.Request.Path = w.d.config.WebSocketPath
    · rw [middlewareRun_skip next env w c (Or.inr hpath)]
      simp [ginMiddleware, hen, hpath]
    · rw [ginMiddleware_tracked _ env w c hen hpath]
      cases hf : (next (openRequest env w c).1 (openRequest env w c).2.1).fault with
      | some f =>
        rw [middlewareRun_panic next env w c hen hpath f hf]
        simp only [Run.toExcept, hf]
        rfl
      | none =>
        cases hs : finalizeStored env (next (openRequest env w c).1 (openRequest env w c).2.1).world
            (next (openRequest env w c).1 (openRequest env w c).2.1).ctx
            (some (openRequest env w c).2.2) env.startTime c.Writer.written with
        | error e =>
          simp only [middlewareRun, hen, hpath, hf, hs, Run.toExcept]
          show _ = (do let w3 ← finalizeRequest env _ _ _ _ _; pure (w3, _))
          rw [finalizeRequest_eq_stored, hs]
          rfl
        | ok stored =>
          rw [middlewareRun_return next env w c hen hpath hf stored hs]
          simp only [Run.toExcept, hf]
          show _ = (do let w3 ← finalizeRequest env _ _ _ _ _; pure (w3, _))
          rw [finalizeRequest_eq_stored, hs]
          rfl

/-! ## Theorems on `Get` with nil elements, and on whole runs -/

/-- The scan of `Get` passes over a prefix of allocated records none of which
has the ID. -/
theorem getLoop_skip (heap : Heap) (id : String) (older rest : List Ptr)
    (hnil : ∀ q ∈ older, q ≠ none) (halloc : ∀ a, some a ∈ older → a < heap.length)
    (hid : ∀ q ∈ older, ∀ r, deref heap q = .ok r → r.ID ≠ id) :
    getLoop heap id (older ++ rest) = getLoop heap id rest := by
  induction older with
  | nil => rfl
  | cons q more ih =>
    cases q with
    | none => exact absurd rfl (hnil none (List.mem_cons_self _ _))
    | some b =>
      obtain ⟨r, hr⟩ := get_of_lt heap b (halloc b (List.mem_cons_self _ _))
      have hd := deref_of_get heap b r hr
      have hne : r.ID ≠ id := hid (some b) (List.mem_cons_self _ _) r hd
      have hstep : getLoop heap id (some b :: (more ++ rest)) = getLoop heap id (more ++ rest) := by
        simp only [getLoop, hd]
        show (if r.ID = id then pure (some b) else getLoop heap id (more ++ rest)) = _
        rw [if_neg hne]
      rw [List.cons_append, hstep]
      exact ih (fun q hq => hnil q (List.mem_cons_of_mem _ hq))
        (fun a ha => halloc a (List.mem_cons_of_mem _ ha))
        (fun q hq => hid q (List.mem_cons_of_mem _ hq))

/-- C10 (counterexample): the exported `Add` accepts nil. On the store built by
`NewRequestStore(2)`, `Add(nil)`, `Add(p)` with `p` a record of ID `a`,
`Get("a")` panics with a nil dereference although a stored record has that ID;
and on the store built by `Add(p)`, `Add(nil)`, `Get("zz")` panics instead of
returning nil. -/
theorem Get_nil_element_counterexample :
    (do let s ← NewRequestStore 2
        let s ← s.Add none
        let s ← s.Add (some 0)
        s.Get [sampleRecord "a"] "a") = .error Fault.nilDeref
      ∧ (do let s ← NewRequestStore 2
            let s ← s.Add (some 0)
            let s ← s.Add none
            s.Get [sampleRecord "a"] "zz") = .error Fault.nilDeref := by
  refine ⟨by decide, by decide⟩

/-- C10 (amended): for every store state without a nil element and every id,
`Get(id)` returns a record iff some stored record has that ID, the record
returned is the oldest stored record with that ID, and `Get` returns nil
otherwise, in particular after `Clear`. On a store with a nil element `Get`
scans oldest first: it returns the first record with the ID when no nil
element is older than it, and it panics with a nil dereference when it
reaches a nil element before any record with the ID. -/
theorem Get_scan_spec (heap : Heap) (s : RequestStore) (id : String)
    (halloc : ∀ a, some a ∈ s.requests → a < heap.length) :
    ((∀ p ∈ s.requests, p ≠ none) →
        ∃ p, s.Get heap id = .ok p
          ∧ (p ≠ none ↔ ∃ q ∈ s.requests, ∃ r, deref heap q = .ok r ∧ r.ID = id)
          ∧ (∀ a, p = some a → ∃ older newer r, s.requests = older ++ some a :: newer
                ∧ deref heap (some a) = .ok r ∧ r.ID = id
                ∧ ∀ q ∈ older, ∀ r1, deref heap q = .ok r1 → r1.ID ≠ id)
          ∧ (∀ s1, s.Clear = .ok s1 → s1.Get heap id = .ok none))
      ∧ (∀ older a newer r, s.requests = older ++ some a :: newer →
          (∀ q ∈ older, q ≠ none) →
          (∀ q ∈ older, ∀ r1, deref heap q = .ok r1 → r1.ID ≠ id) →
          deref heap (some a) = .ok r → r.ID = id →
          s.Get heap id = .ok (some a))
      ∧ (∀ older newer, s.requests = older ++ none :: newer →
          (∀ q ∈ older, q ≠ none) →
          (∀ q ∈ older, ∀ r1, deref heap q = .ok r1 → r1.ID ≠ id) →
          s.Get heap id = .error Fault.nilDeref) := by
  refine ⟨?_, ?_, ?_⟩
  · intro hnil
    have hv : StoreValid heap s := by
      intro p hp
      cases p with
      | none => exact absurd rfl (hnil none hp)
      | some a => simp only [validPtr, decide_eq_true_eq]; exact halloc a hp
    exact Get_spec heap s id hv
  · intro older a newer r hreq hnil hid hd hrid
    have hal : ∀ b, some b ∈ older → b < heap.length :=
      fun b hb => halloc b (by rw [hreq]; exact List.mem_append_left _ hb)
    simp only [RequestStore.Get, hreq, getLoop_skip heap id older _ hnil hal hid, getLoop, hd]
    show (if r.ID = id then pure (some a) else getLoop heap id newer) = _
    rw [if_pos hrid]; rfl
  · intro older newer hreq hnil hid
    have hal : ∀ b, some b ∈ older → b < heap.length :=
      fun b hb => halloc b (by rw [hreq]; exact List.mem_append_left _ hb)
    simp only [RequestStore.Get, hreq, getLoop_skip heap id older _ hnil hal hid, getLoop, deref]
    rfl

theorem Get_scan_spec_witness :
    (∀ a, some a ∈ (RequestStore.mk [some 0, none] 2).requests →
        a < [sampleRecord "a"].length)
      ∧ RequestStore.Get [sampleRecord "a"] (RequestStore.mk [some 0, none] 2) "zz"
          = .error Fault.nilDeref
      ∧ RequestStore.Get [sampleRecord "a"] (RequestStore.mk [some 0, none] 2) "a"
          = .ok (some 0) :=
  have halloc : ∀ a, some a ∈ (RequestStore.mk [some 0, none] 2).requests →
      a < [sampleRecord "a"].length := by
    intro a ha
    simp only [List.mem_cons, Option.some.injEq, List.mem_singleton, List.not_mem_nil,
      or_false] at ha
    rcases ha with h | h
    · rw [h]; decide
    · cases h
  ⟨halloc,
    (Get_scan_spec [sampleRecord "a"] (RequestStore.mk [some 0, none] 2) "zz" halloc).2.2
      [some 0] [] rfl (by decide)
      (by intro q hq r1 h1
          rw [List.mem_singleton.mp hq] at h1
          cases h1
          decide),
    (Get_scan_spec [sampleRecord "a"] (RequestStore.mk [some 0, none] 2) "a" halloc).2.1
      [] 0 [none] (sampleRecord "a") rfl (by simp) (by simp) rfl rfl⟩

/-- C12 (amended): for every tracked request (tracking enabled, path different
from `WebSocketPath`), every handler and every well-formed state of a debug
bar with a store capacity of at least one. The run of the middleware agrees
with `ginMiddleware`. Before the handler runs exactly one `request` message
about the new record has been broadcast, no `request_end`, and the record is
not in the store; this stays so in every state while the handler runs, and the
handler never stores the record. When the handler returns, the middleware
stores the record, exactly once in the whole run, with `request_end` not yet
broadcast, and then broadcasts exactly one `request_end` about it. When the
handler panics, the run ends in that panic and in none of its states is the
record in the store or a `request_end` about it broadcast. A request whose
path equals `WebSocketPath` only runs the handler: no record, no insertion, no
message. -/
theorem tracked_request_trace (h : Handler) (env : Env) (w : World) (c : GinContext)
    (hwf : w.WF) (hen : w.d.config.Enabled = true)
    (hpath : c.Request.Path ≠ w.d.config.WebSocketPath) :
    (middlewareRun h.run env w c).toExcept
        = ginMiddleware (fun w1 c1 => (h.run w1 c1).toExcept) env w c
      ∧ (storeCount w.heap.length (openRequest env w c).1 = 0
          ∧ eventCount MessageTypeRequest w.heap.length (openRequest env w c).1 = 1
          ∧ eventCount MessageTypeRequestEnd w.heap.length (openRequest env w c).1 = 0)
      ∧ (∀ s, s ∈ (handlerPart h.run env w c).visited ∨ s = (handlerPart h.run env w c).world →
          storeCount w.heap.length s = 0
            ∧ eventCount MessageTypeRequest w.heap.length s = 1
            ∧ eventCount MessageTypeRequestEnd w.heap.length s = 0)
      ∧ some w.heap.length ∉ (handlerPart h.run env w c).inserted
      ∧ ((handlerPart h.run env w c).fault = none →
          ∃ stored final, middlewareRun h.run env w c
            = { visited := (openRequest env w c).1 :: (handlerPart h.run env w c).visited
                  ++ [stored, final]
                inserted := (handlerPart h.run env w c).inserted ++ [some w.heap.length]
                world := final
                ctx := (handlerPart h.run env w c).ctx
                fault := none }
            ∧ (middlewareRun h.run env w c).inserted.count (some w.heap.length) = 1
            ∧ storeCount w.heap.length stored = 1
            ∧ eventCount MessageTypeRequest w.heap.length stored = 1
            ∧ eventCount MessageTypeRequestEnd w.heap.length stored = 0
            ∧ storeCount w.heap.length final = 1
            ∧ eventCount MessageTypeRequest w.heap.length final = 1
            ∧ eventCount MessageTypeRequestEnd w.heap.length final = 1)
      ∧ (∀ f, (handlerPart h.run env w c).fault = some f →
          (middlewareRun h.run env w c).toExcept = .error f
            ∧ (middlewareRun h.run env w c).visited
                = (openRequest env w c).1 :: (handlerPart h.run env w c).visited
            ∧ (middlewareRun h.run env w c).inserted.count (some w.heap.length) = 0
            ∧ ∀ s, s ∈ (middlewareRun h.run env w c).visited
                ∨ s = (middlewareRun h.run env w c).world →
                storeCount w.heap.length s = 0
                  ∧ eventCount MessageTypeRequest w.heap.length s = 1
                  ∧ eventCount MessageTypeRequestEnd w.heap.length s = 0)
      ∧ (∀ c1 : GinContext, c1.Request.Path = w.d.config.WebSocketPath →
          middlewareRun h.run env w c1 = h.run w c1) := by
  obtain ⟨_, hopen, hduring, hins, hpanic, hreturn⟩ :=
    tracked_run_spec h.run env w c hwf hen hpath
      (handler_keeps h _ _ (openRequest_facts env w c hwf).1)
  refine ⟨middlewareRun_agrees h.run env w c, hopen, hduring, hins, ?_, ?_, ?_⟩
  · intro hf
    obtain ⟨stored, final, hrun, hrest⟩ := hreturn hf
    refine ⟨stored, final, hrun, ?_, hrest⟩
    rw [hrun]
    simp only [List.count_append, List.count_cons, List.count_nil, beq_self_eq_true, if_true]
    have := List.count_eq_zero.mpr hins
    omega
  · intro f hf
    have hrun := hpanic f hf
    refine ⟨by rw [hrun]; rfl, by rw [hrun], by rw [hrun]; exact List.count_eq_zero.mpr hins, ?_⟩
    rw [hrun]
    intro s hs
    rcases hs with hs | hs
    · rcases List.mem_cons.mp hs with h1 | h1
      · rw [h1]; exact hopen
      · exact hduring s (Or.inl h1)
    · exact hduring s (Or.inr hs)
  · intro c1 hc1
    exact middlewareRun_skip h.run env w c1 (Or.inr hc1)

theorem tracked_request_trace_witness :
    (sampleWorld true).WF ∧ (sampleWorld true).d.config.Enabled = true
      ∧ incomingContext.Request.Path ≠ (sampleWorld true).d.config.WebSocketPath
      ∧ (middlewareRun sampleHandler.run sampleEnv (sampleWorld true) incomingContext).toExcept
          = ginMiddleware (fun w1 c1 => (sampleHandler.run w1 c1).toExcept) sampleEnv
              (sampleWorld true) incomingContext
      ∧ some (sampleWorld true).heap.length
          ∉ (handlerPart sampleHandler.run sampleEnv (sampleWorld true) incomingContext).inserted :=
  ⟨by decide, by decide, by decide,
    (tracked_request_trace sampleHandler sampleEnv (sampleWorld true) incomingContext
      (by decide) (by decide) (by decide)).1,
    (tracked_request_trace sampleHandler sampleEnv (sampleWorld true) incomingContext
      (by decide) (by decide) (by decide)).2.2.2.1⟩

/-- C3: no run finalizes a record twice, so a record's finalization produces
exactly one insertion into the store and exactly one `request_end` message.
The finalization is inline in the middleware, on the record the same call
creates, and no exported operation stores a record or broadcasts
`request_end`. For every tracked request whose handler returns, the run passes
the record to `storeRequest` exactly once and ends with the record once in the
store and one `request_end` about it; and whatever runs afterwards (further
requests, any handler) never stores the record again and never broadcasts
another `request_end` about it. -/
theorem record_finalized_once (h later : Handler) (env : Env) (w : World)
    (c c1 : GinContext) (hwf : w.WF) (hen : w.d.config.Enabled = true)
    (hpath : c.Request.Path ≠ w.d.config.WebSocketPath)
    (hret : (handlerPart h.run env w c).fault = none) :
    (middlewareRun h.run env w c).fault = none
      ∧ (middlewareRun h.run env w c).inserted.count (some w.heap.length) = 1
      ∧ storeCount w.heap.length (middlewareRun h.run env w c).world = 1
      ∧ eventCount MessageTypeRequestEnd w.heap.length (middlewareRun h.run env w c).world = 1
      ∧ some w.heap.length
          ∉ (later.run (middlewareRun h.run env w c).world c1).inserted
      ∧ ∀ s, s ∈ (later.run (middlewareRun h.run env w c).world c1).visited
            ∨ s = (later.run (middlewareRun h.run env w c).world c1).world →
          storeCount w.heap.length s ≤ 1
            ∧ eventCount MessageTypeRequestEnd w.heap.length s = 1 := by
  obtain ⟨hkeep, _, _, hins, _, hreturn⟩ :=
    tracked_run_spec h.run env w c hwf hen hpath
      (handler_keeps h _ _ (openRequest_facts env w c hwf).1)
  obtain ⟨stored, final, hrun, _, _, _, hfs, _, hfe⟩ := hreturn hret
  have hwfR : (middlewareRun h.run env w c).world.WF := hkeep.1
  have hworld : (middlewareRun h.run env w c).world = final := by rw [hrun]
  have hsR : storeCount w.heap.length (middlewareRun h.run env w c).world = 1 := by
    rw [hworld]; exact hfs
  have heR : eventCount MessageTypeRequestEnd w.heap.length
      (middlewareRun h.run env w c).world = 1 := by
    rw [hworld]; exact hfe
  have halloc : w.heap.length < (middlewareRun h.run env w c).world.heap.length := by
    have hmem : some w.heap.length ∈ (middlewareRun h.run env w c).world.d.store.requests := by
      have : 0 < ((middlewareRun h.run env w c).world.d.store.requests).count
          (some w.heap.length) := by
        have := hsR
        simp only [storeCount] at this
        omega
      exact List.count_pos_iff.mp this
    have := hwfR.2.2.2.1 _ hmem
    simpa [ptrAllocated] using this
  obtain ⟨hlv, hlw, hli⟩ :=
    (handler_keeps later (middlewareRun h.run env w c).world c1 hwfR).2.2 w.heap.length halloc
  refine ⟨by rw [hrun], ?_, hsR, heR, hli, ?_⟩
  · rw [hrun]
    simp only [List.count_append, List.count_cons, List.count_nil, beq_self_eq_true, if_true]
    have := List.count_eq_zero.mpr hins
    omega
  · intro s hs
    have hk : Keeps w.heap.length (middlewareRun h.run env w c).world s := by
      rcases hs with h1 | h1
      · exact hlv s h1
      · rw [h1]; exact hlw
    refine ⟨?_, by rw [hk.2, heR]⟩
    have := hk.1
    omega

theorem record_finalized_once_witness :
    (sampleWorld true).WF ∧ (sampleWorld true).d.config.Enabled = true
      ∧ incomingContext.Request.Path ≠ (sampleWorld true).d.config.WebSocketPath
      ∧ (handlerPart sampleHandler.run sampleEnv (sampleWorld true) incomingContext).fault = none
      ∧ (middlewareRun sampleHandler.run sampleEnv (sampleWorld true)
          incomingContext).inserted.count (some (sampleWorld true).heap.length) = 1 :=
  ⟨by decide, by decide, by decide, by decide,
    (record_finalized_once sampleHandler sampleHandler sampleEnv (sampleWorld true)
      incomingContext incomingContext (by decide) (by decide) (by decide) (by decide)).2.1⟩

end GoDebugBar
